import Mathlib

/-!
# ewmhstatus: a shallow embedding of `ewmhstatus.c`

The C program keeps three `char[BUFSIZ]` fields (`desktop_name`, `window_title`,
`external_infos`), refreshes them from X11/EWMH property queries and from a FIFO, and prints
one positioned line for a bar.

Modelling conventions.

* A `char` array is a `List Nat` of bytes whose length is the size of the array; a C string is
  the bytes before the first `0`.
* Every array access is checked: an index outside the array is the fault `outOfBounds`, so
  undefined behaviour of the C program shows up as an error value, never as a made-up result.
* `unsigned int` arithmetic is reduced modulo `2^32`, `size_t` arithmetic modulo `2^64`.
* `text_width` returns an `int` converted to `double`, and every `double` of the program
  is computed from such values, `screen_width` and `horiz_padding` by `+`, `-` and one final
  halving.  Widths are therefore integers here (`Int`), and the one half-integer expression is
  kept exact (see `positions`).
* The cairo backend is a parameter `advance : List Nat → Int` (the x-advance of a string as
  truncated to `int` by `text_width`); `BUFSIZ` of `<stdio.h>` is a parameter as well.
* The recursion of `truncate_text` and the loop of `copy_prop` take a `fuel` argument and
  return the fault `fuel` when it runs out; loops that count an index down or up to a bound
  are structural recursions.
* Signed `int` values are `Int`; signed overflow (undefined in C) is not modelled.
* Replies of the X server are inputs: a `Replies` record says what each query would answer.
-/

namespace Ewmhstatus

/-! ## Memory model -/

/-- The ways in which a run of the C code can go wrong. -/
inductive Fault where
  /-- an array was read or written at an index outside of it -/
  | outOfBounds (idx : Int)
  /-- a `double` outside the range of `int` was converted to `int` -/
  | intRange (v : Int)
  /-- the fuel of the model ran out (says nothing about the C code) -/
  | fuel
deriving DecidableEq, Repr

/-- Read `s[i]`. -/
def load (s : List Nat) (i : Nat) : Except Fault Nat :=
  match s.get? i with
  | some c => .ok c
  | none => .error (.outOfBounds i)

/-- Write `s[i] = c`. -/
def store (s : List Nat) (i : Nat) (c : Nat) : Except Fault (List Nat) :=
  if i < s.length then .ok (s.set i c) else .error (.outOfBounds i)

/-- The C string held at the start of a buffer: the bytes before the first NUL. -/
def cstr (s : List Nat) : List Nat := s.takeWhile (fun c => c != 0)

/-- The C function `strlen(s)`: the index of the first NUL; running off the array is a fault. -/
def strlen (s : List Nat) : Except Fault Nat :=
  if (cstr s).length < s.length then .ok (cstr s).length else .error (.outOfBounds s.length)

/-! ## Text measurement and truncation (source lines 19-21, 51-81) -/

/-- The macro `ABS(A, B)`: `((A) > (B) ? (A - B) : (B - A))` on unsigned operands. -/
def ABS (a b : Nat) : Nat := if a > b then a - b else b - a

/-- The function `text_width(s)`: the backend measures the C string at `s`. -/
def text_width (advance : List Nat → Int) (s : List Nat) : Except Fault Int :=
  if (cstr s).length < s.length then .ok (advance (cstr s)) else .error (.outOfBounds s.length)

/-- The function `truncate_text(s, width, lower, upper)`; `lower`, `upper`, `middle` are `unsigned int`. -/
def truncate_text (advance : List Nat → Int) :
    Nat → List Nat → Int → Nat → Nat → Except Fault (List Nat)
  | 0, _, _, _, _ => .error .fuel
  | fuel + 1, s, width, lower, upper =>
    if ABS lower upper < 2 then
      store s lower 0
    else do
      let middle := (lower + upper) % 2 ^ 32 / 2
      let c ← load s middle
      let s ← store s middle 0
      let w ← text_width advance s
      let s ← store s middle c
      if w < width then
        truncate_text advance fuel s width middle upper
      else
        truncate_text advance fuel s width lower middle

/-- The truncation step of `output_infos` (source lines 167-170): given the measured
`center_width` and `available_center`, the new title buffer and its width.
`strlen(window_title) - 1` is computed in `size_t` and passed as `unsigned int`. -/
def truncate_step (advance : List Nat → Int) (fuel : Nat) (window_title : List Nat)
    (center_width available_center : Int) : Except Fault (List Nat × Int) :=
  if center_width > available_center then do
    let n ← strlen window_title
    let t ← truncate_text advance fuel window_title available_center 0
      ((n + 2 ^ 64 - 1) % 2 ^ 64 % 2 ^ 32)
    let w ← text_width advance t
    pure (t, w)
  else
    pure (window_title, center_width)

/-- The map `fit(s, w)` on title buffers: measure the title, then run the truncation step. -/
def fit (advance : List Nat → Int) (fuel : Nat) (s : List Nat) (w : Int) :
    Except Fault (List Nat) := do
  let center_width ← text_width advance s
  let r ← truncate_step advance fuel s center_width w
  pure r.1

/-- The index at which `truncate_text` cuts when `lower <= upper` lie inside the title `t`
and `lower + upper` does not wrap: the same binary search, on indices only. -/
def cutIdx (advance : List Nat → Int) (t : List Nat) (width : Int) : Nat → Nat → Nat → Nat
  | 0, lower, _ => lower
  | fuel + 1, lower, upper =>
    if upper - lower < 2 then lower
    else
      let middle := (lower + upper) / 2
      if advance (t.take middle) < width then cutIdx advance t width fuel middle upper
      else cutIdx advance t width fuel lower middle

/-! ## Property extraction (source lines 19-24, 83-99) -/

/-- The macro `MIN(A, B)`: `((A) > (B) ? (B) : (A))`. -/
def MIN (a b : Int) : Int := if a > b then b else a

/-- The macro `MAX(A, B)`: `((A) > (B) ? (A) : (B))`. -/
def MAX (a b : Int) : Int := if a > b then a else b

/-- The macro `MISSING_VALUE`, the string `" "`. -/
def MISSING_VALUE : List Nat := [32]

/-- Conversion of an `int` to `size_t` (64 bit). -/
def size_t_of_int (n : Int) : Nat := (n % 2 ^ 64).toNat

/-- Conversion of an `unsigned int` to `int` (two's complement, as gcc and clang do). -/
def int_of_uint (n : Nat) : Int :=
  if n % 2 ^ 32 < 2 ^ 31 then ((n % 2 ^ 32 : Nat) : Int) else ((n % 2 ^ 32 : Nat) : Int) - 2 ^ 32

/-- Write `s[i] = c` for an `int` index. -/
def store_at (s : List Nat) (i : Int) (c : Nat) : Except Fault (List Nat) :=
  if 0 ≤ i ∧ i.toNat < s.length then .ok (s.set i.toNat c) else .error (.outOfBounds i)

/-- The NUL padding of `strncpy`: `dest[i] = ... = dest[i + k - 1] = 0`. -/
def pad_zero : List Nat → Nat → Nat → Except Fault (List Nat)
  | dest, _, 0 => .ok dest
  | dest, i, k + 1 => do
    let d ← store dest i 0
    pad_zero d (i + 1) k

/-- The copying loop of `strncpy`, at index `i` with `k` bytes still to write. -/
def strncpy_from (src : List Nat) : List Nat → Nat → Nat → Except Fault (List Nat)
  | dest, _, 0 => .ok dest
  | dest, i, k + 1 => do
    let c ← load src i
    let d ← store dest i c
    if c = 0 then pad_zero d (i + 1) k else strncpy_from src d (i + 1) k

/-- The function `strncpy(dest, src, n)` of the C library: copies up to the first NUL of `src`, at most `n`
bytes, and fills the rest of the `n` bytes with NUL; no NUL is added when `src` has `n` or more
bytes before its first NUL. -/
def strncpy (dest src : List Nat) (n : Nat) : Except Fault (List Nat) :=
  strncpy_from src dest 0 n

/-- Write the bytes `bs` to `dest[i], dest[i+1], ...`. -/
def store_all : List Nat → Nat → List Nat → Except Fault (List Nat)
  | dest, _, [] => .ok dest
  | dest, i, b :: bs => do
    let d ← store dest i b
    store_all d (i + 1) bs

/-- The call `strcpy(dest, lit)` for a string literal `lit` (given without its NUL). -/
def strcpy (dest lit : List Nat) : Except Fault (List Nat) :=
  store_all dest 0 (lit ++ [0])

/-- The branch `num_itm <= 1` of `copy_prop` (source lines 86-87). -/
def copy_prop_single (BUFSIZ : Nat) (dest src : List Nat) (len : Int) : Except Fault (List Nat) := do
  let d ← strncpy dest src (size_t_of_int (MIN len BUFSIZ))
  store_at d len 0

/-- The `while` loop of `copy_prop` (source lines 90-93), from `pos` and `cnt`. -/
def copy_prop_loop (src : List Nat) (len idx num_itm : Int) :
    Nat → Int → Int → Except Fault (Int × Int)
  | 0, _, _ => .error .fuel
  | fuel + 1, pos, cnt =>
    if cnt < idx ∧ cnt < num_itm - 1 ∧ pos < len then do
      let l ← strlen (src.drop pos.toNat)
      copy_prop_loop src len idx num_itm fuel (pos + ((l : Int) + 1)) (cnt + 1)
    else
      .ok (pos, cnt)

/-- The function `copy_prop(dest, src, len, idx, num_itm)`.  The recursive call of line 95 has
`num_itm = 1`, so it runs the first branch on `src + pos` and `len - pos`. -/
def copy_prop (BUFSIZ : Nat) (fuel : Nat) (dest src : List Nat) (len idx num_itm : Int) :
    Except Fault (List Nat) :=
  if num_itm ≤ 1 then
    copy_prop_single BUFSIZ dest src len
  else do
    let (pos, cnt) ← copy_prop_loop src len idx num_itm fuel 0 0
    if cnt = num_itm - 1 then
      copy_prop_single BUFSIZ dest (src.drop pos.toNat) (len - pos)
    else
      strncpy dest (src.drop pos.toNat) BUFSIZ

/-- The buffer `s_0 NUL s_1 NUL ... s_(n-1) NUL` of a multi-string property. -/
def concat_strings : List (List Nat) → List Nat
  | [] => []
  | s :: ss => s ++ 0 :: concat_strings ss

/-! ## Program state and X11 collaborators -/

/-- The globals of the program that the handlers read and write, with the two output streams
and the set of windows on which this client has selected property-change events. -/
structure State where
  /-- declared `uint16_t screen_width` -/
  screen_width : Nat
  /-- declared `unsigned int horiz_padding` -/
  horiz_padding : Nat
  cur_desktop : Nat
  num_desktops : Nat
  desktop_name : List Nat
  window_title : List Nat
  external_infos : List Nat
  cur_win : Nat
  /-- windows whose event mask (for this client) is `XCB_EVENT_MASK_PROPERTY_CHANGE` -/
  subscribed : List Nat
  /-- the lines written to standard output, oldest first -/
  stdout : List (List Nat)
  /-- the windows named in messages written to standard error, oldest first -/
  stderr : List Nat
deriving DecidableEq, Repr

/-- The atoms of `xcb_ewmh_connection_t` that `handle_event` compares with. -/
structure Ewmh where
  _NET_DESKTOP_NAMES : Nat
  _NET_ACTIVE_WINDOW : Nat
  _NET_WM_NAME : Nat
  _NET_NUMBER_OF_DESKTOPS : Nat
  _NET_CURRENT_DESKTOP : Nat
deriving DecidableEq, Repr

/-- The fields of `xcb_property_notify_event_t` that `handle_event` reads. -/
structure Event where
  response_type : Nat
  window : Nat
  atom : Nat
deriving DecidableEq, Repr

/-- What the X server answers to each query of one handler run.  `none` is a reply function
returning 0 (it leaves its out-parameter untouched); `some v` is it returning 1 with value `v`.
A string value is the reply's byte buffer and its length is `strings_len` or `name_len`. -/
structure Replies where
  current_desktop : Option Nat
  number_of_desktops : Option Nat
  desktop_names : Option (List Nat)
  active_window : Option Nat
  ewmh_wm_name : Nat → Option (List Nat)
  icccm_wm_name : Nat → Option (List Nat)
  /-- whether `xcb_change_window_attributes_checked` on the window succeeds -/
  subscribe_ok : Nat → Bool

/-- The constant `XCB_PROPERTY_NOTIFY` of `xproto.h`. -/
def XCB_PROPERTY_NOTIFY : Nat := 28

/-- The constant `XCB_ATOM_WM_NAME` of `xproto.h`. -/
def XCB_ATOM_WM_NAME : Nat := 39

/-- The macro `XCB_EVENT_RESPONSE_TYPE(e)` of `xcb_event.h`: `e->response_type & ~0x80` on a byte. -/
def XCB_EVENT_RESPONSE_TYPE (e : Event) : Nat := e.response_type % 256 % 128

/-- The interned atoms are pairwise different and differ from the predefined `WM_NAME`:
the X server gives different names different atoms. -/
def Ewmh.distinct (e : Ewmh) : Prop :=
  [e._NET_DESKTOP_NAMES, e._NET_ACTIVE_WINDOW, e._NET_WM_NAME, e._NET_NUMBER_OF_DESKTOPS,
    e._NET_CURRENT_DESKTOP, XCB_ATOM_WM_NAME].Nodup

instance (e : Ewmh) : Decidable e.distinct :=
  inferInstanceAs (Decidable ([e._NET_DESKTOP_NAMES, e._NET_ACTIVE_WINDOW, e._NET_WM_NAME,
    e._NET_NUMBER_OF_DESKTOPS, e._NET_CURRENT_DESKTOP, XCB_ATOM_WM_NAME].Nodup))

/-! ## Refresh operations (source lines 107-158) -/

/-- The function `update_cur_desktop()`: the reply function stores the value when it
succeeds and leaves `cur_desktop` alone when it fails. -/
def update_cur_desktop (env : Replies) (st : State) : State :=
  match env.current_desktop with
  | some v => { st with cur_desktop := v }
  | none => st

/-- The function `update_num_desktops()`: the reply function stores the value when it
succeeds and leaves `num_desktops` alone when it fails. -/
def update_num_desktops (env : Replies) (st : State) : State :=
  match env.number_of_desktops with
  | some v => { st with num_desktops := v }
  | none => st

/-- The text properties as `update_window_title` sees them in its condition (lines 125-130):
both start as NULL, the EWMH query runs first and the ICCCM query runs only when the EWMH
query failed (`||` short-circuits). -/
def title_queries (env : Replies) (win : Nat) : Option (List Nat) × Option (List Nat) :=
  match env.ewmh_wm_name win with
  | some v => (some v, none)
  | none => (none, env.icccm_wm_name win)

/-- The test `p != NULL && len > 0` on a text property. -/
def nonempty_value : Option (List Nat) → Option (List Nat)
  | some v => if v.length > 0 then some v else none
  | none => none

/-- The title written by `update_window_title` once its condition holds (source lines
131-137): the EWMH value if it is there and non-empty, else the ICCCM value if it is there and
non-empty, else `MISSING_VALUE`. -/
def store_title (BUFSIZ : Nat) (window_title : List Nat)
    (ewmh_txt_prop icccm_txt_prop : Option (List Nat)) : Except Fault (List Nat) :=
  match nonempty_value ewmh_txt_prop with
  | some strings => copy_prop_single BUFSIZ window_title strings (int_of_uint strings.length)
  | none =>
    match nonempty_value icccm_txt_prop with
    | some name => copy_prop_single BUFSIZ window_title name (int_of_uint name.length)
    | none => strcpy window_title MISSING_VALUE

/-- The subscription move of `update_window_title` (source lines 138-144): the event mask of
the old `cur_win` is reset when `win` differs from it, `cur_win` becomes `win`, and
property-change events are requested on `win`; a failure of that request is logged. -/
def track_window (env : Replies) (win : Nat) (st : State) : State :=
  let subs := if win ≠ st.cur_win then st.subscribed.filter (fun x => x != st.cur_win)
    else st.subscribed
  if env.subscribe_ok win then
    { st with cur_win := win, subscribed := if win ∈ subs then subs else win :: subs }
  else
    { st with cur_win := win, subscribed := subs, stderr := st.stderr ++ [win] }

/-- The function `update_window_title()`. -/
def update_window_title (BUFSIZ : Nat) (env : Replies) (st : State) : Except Fault State :=
  match env.active_window with
  | none => do
    let t ← strcpy st.window_title MISSING_VALUE
    pure { st with window_title := t }
  | some win =>
    let (ewmh_txt_prop, icccm_txt_prop) := title_queries env win
    if ewmh_txt_prop.isSome || icccm_txt_prop.isSome then do
      let t ← store_title BUFSIZ st.window_title ewmh_txt_prop icccm_txt_prop
      pure (track_window env win { st with window_title := t })
    else do
      let t ← strcpy st.window_title MISSING_VALUE
      pure { st with window_title := t }

/-- The function `update_desktop_name()`; `strings_len`, `cur_desktop` and `num_desktops` are
unsigned and are passed as `int`. -/
def update_desktop_name (BUFSIZ : Nat) (fuel : Nat) (env : Replies) (st : State) :
    Except Fault State :=
  match env.desktop_names with
  | some strings => do
    let d ← copy_prop BUFSIZ fuel st.desktop_name strings (int_of_uint strings.length)
      (int_of_uint st.cur_desktop) (int_of_uint st.num_desktops)
    pure { st with desktop_name := d }
  | none => do
    let d ← strcpy st.desktop_name MISSING_VALUE
    pure { st with desktop_name := d }

/-! ## Rendering (source lines 160-178) -/

/-- Conversion of a `double` with integer value `v` to `int`: undefined outside of `int`. -/
def int_of_double (v : Int) : Except Fault Int :=
  if -(2 ^ 31) ≤ v ∧ v < 2 ^ 31 then .ok v else .error (.intRange v)

/-- Conversion to `int` of the `double` with value `num / 2`: truncation toward zero,
undefined when the truncated value is outside of `int`. -/
def int_of_half (num : Int) : Except Fault Int :=
  int_of_double (Int.tdiv num 2)

/-- The bytes of a string literal. -/
def bytes (s : String) : List Nat := s.toList.map Char.toNat

/-- The line of `printf("^pa(%i)%s^pa(%i)%s^pa(%i)%s\n", ...)`. -/
def format_line (center_pos : Int) (window_title : List Nat) (right_pos : Int)
    (external_infos : List Nat) (left_pos : Int) (desktop_name : List Nat) : List Nat :=
  bytes "^pa(" ++ bytes (toString center_pos) ++ bytes ")" ++ cstr window_title
    ++ bytes "^pa(" ++ bytes (toString right_pos) ++ bytes ")" ++ cstr external_infos
    ++ bytes "^pa(" ++ bytes (toString left_pos) ++ bytes ")" ++ cstr desktop_name
    ++ bytes "\n"

/-- The three positions `(left_pos, right_pos, center_pos)` of `output_infos` (source lines
172-174) from the measured widths.  `screen_width - horiz_padding` and `2 * horiz_padding`
are `unsigned int`; the `double`
`left_width + 2 * horiz_padding + (available_center - center_width) / 2` equals
`(2 * (left_width + 2 * horiz_padding) + (available_center - center_width)) / 2` exactly. -/
def positions (screen_width horiz_padding : Nat)
    (left_width right_width center_width available_center : Int) :
    Except Fault (Int × Int × Int) := do
  let left_pos := int_of_uint horiz_padding
  let right_pos ← int_of_double
    (((screen_width + 2 ^ 32 - horiz_padding % 2 ^ 32) % 2 ^ 32 : Nat) - right_width)
  let center_pos ← int_of_half
    (2 * (left_width + ((2 * horiz_padding % 2 ^ 32 : Nat) : Int))
      + (available_center - center_width))
  pure (left_pos, right_pos, center_pos)

/-- The value `available_center` of `output_infos` (source line 165); `4 * horiz_padding` is
`unsigned int`. -/
def available_center (screen_width horiz_padding : Nat) (left_width right_width : Int) : Int :=
  (screen_width : Int) - (left_width + right_width + ((4 * horiz_padding % 2 ^ 32 : Nat) : Int))

/-- The measuring, truncating and positioning part of `output_infos` (source lines 162-174):
the title buffer after the truncation step and `(left_pos, right_pos, center_pos)`. -/
def layout (advance : List Nat → Int) (fuel : Nat) (st : State) :
    Except Fault (List Nat × Int × Int × Int) := do
  let left_width ← text_width advance st.desktop_name
  let right_width ← text_width advance st.external_infos
  let center_width ← text_width advance st.window_title
  let available_center := available_center st.screen_width st.horiz_padding left_width right_width
  let (window_title, center_width) ←
    truncate_step advance fuel st.window_title center_width available_center
  let pos ← positions st.screen_width st.horiz_padding left_width right_width center_width
    available_center
  pure (window_title, pos)

/-- The function `output_infos()`: the new state, with the emitted line appended to `stdout`. -/
def output_infos (advance : List Nat → Int) (fuel : Nat) (st : State) : Except Fault State := do
  let (window_title, left_pos, right_pos, center_pos) ← layout advance fuel st
  pure { st with
    window_title := window_title
    stdout := st.stdout ++
      [format_line center_pos window_title right_pos st.external_infos left_pos
        st.desktop_name] }

/-! ## Event routing (source lines 180-205) -/

/-- The function `handle_event(evt)`; `root` is `screen->root`. -/
def handle_event (ewmh : Ewmh) (root : Nat) (BUFSIZ : Nat) (advance : List Nat → Int)
    (fuel : Nat) (env : Replies) (pne : Event) (st : State) : Except Fault State :=
  if XCB_EVENT_RESPONSE_TYPE pne = XCB_PROPERTY_NOTIFY then
    if pne.atom = ewmh._NET_DESKTOP_NAMES then do
      let st ← update_desktop_name BUFSIZ fuel env st
      output_infos advance fuel st
    else if pne.atom = ewmh._NET_ACTIVE_WINDOW then do
      let st ← update_window_title BUFSIZ env st
      output_infos advance fuel st
    else if pne.window ≠ root
        ∧ (pne.atom = ewmh._NET_WM_NAME ∨ pne.atom = XCB_ATOM_WM_NAME) then do
      let st ← update_window_title BUFSIZ env st
      output_infos advance fuel st
    else if pne.atom = ewmh._NET_NUMBER_OF_DESKTOPS then
      pure (update_num_desktops env st)
    else if pne.atom = ewmh._NET_CURRENT_DESKTOP then do
      let st := update_cur_desktop env st
      let st ← update_desktop_name BUFSIZ fuel env st
      output_infos advance fuel st
    else
      pure st
  else
    pure st

/-! ## The feed pipe (source lines 274-283) -/

/-- The function `isspace` of `<ctype.h>` in the "C" locale (the program never calls `setlocale`):
space, `\t`, `\n`, `\v`, `\f`, `\r`. -/
def isspace (c : Nat) : Bool := c == 32 || (9 ≤ c && c ≤ 13)

/-- The loop `while (i > 0 && isspace(external_infos[i])) external_infos[i--] = 0`,
started at index `i`. -/
def strip_trailing : Nat → List Nat → Except Fault (List Nat)
  | 0, s => .ok s
  | i + 1, s => do
    let c ← load s (i + 1)
    if isspace c then do
      let s ← store s (i + 1) 0
      strip_trailing i s
    else
      .ok s

/-- What `read(fifo_fd, external_infos, sizeof(external_infos))` leaves in the buffer when it
transfers the bytes `data` (at most `BUFSIZ` of them). -/
def read_into (buf data : List Nat) : List Nat :=
  data ++ buf.drop data.length

/-- The body of `if (bytes > 0)` up to the call of `output_infos` (source lines 277-280):
`buf` is `external_infos` after a `read` that returned `bytes`. -/
def feed_store (buf : List Nat) (bytes : Nat) : Except Fault (List Nat) := do
  let s ← store buf bytes 0
  strip_trailing (bytes - 1) s

/-- The feed branch of the main loop; `rd` is `none` when `read` fails (returns -1) and
otherwise the bytes that are ready in the pipe, of which `read` takes at most
`sizeof(external_infos)`. -/
def read_feed (BUFSIZ : Nat) (advance : List Nat → Int) (fuel : Nat)
    (rd : Option (List Nat)) (st : State) : Except Fault State :=
  match rd with
  | none => pure st
  | some ready =>
    let data := ready.take BUFSIZ
    let bytes := data.length
    let st := { st with external_infos := read_into st.external_infos data }
    if bytes > 0 then do
      let s ← feed_store st.external_infos bytes
      output_infos advance fuel { st with external_infos := s }
    else
      pure st

/-! ## Definitions that follow the specification -/

/-- The routing table of the specification (section 4.4), column "Re-render?": a
property-change notification re-renders when the changed atom is desktop-names, active-window
or current-desktop, or a window-name atom (EWMH or legacy) from a window other than the root. -/
def rerender_spec (ewmh : Ewmh) (root : Nat) (pne : Event) : Bool :=
  pne.atom == ewmh._NET_DESKTOP_NAMES || pne.atom == ewmh._NET_ACTIVE_WINDOW
    || pne.atom == ewmh._NET_CURRENT_DESKTOP
    || ((pne.atom == ewmh._NET_WM_NAME || pne.atom == XCB_ATOM_WM_NAME) && pne.window != root)

/-- The bytes `l` with all trailing whitespace removed, as the specification describes the
stored feed text. -/
def strip_spec (l : List Nat) : List Nat := (l.reverse.dropWhile isspace).reverse

/-! ## Sample inputs -/

/-- A measurer for examples: 10 pixels per character, at most 5000 pixels. -/
def sample_advance (t : List Nat) : Int := min (10 * (t.length : Int)) 5000

/-- A state for examples: a 1000 pixel screen, padding 9, desktop name `"1:w"`, title `"abc"`
and feed text `"12"` in 8-byte buffers. -/
def sample_state : State :=
  { screen_width := 1000
    horiz_padding := 9
    cur_desktop := 0
    num_desktops := 1
    desktop_name := [49, 58, 119, 0, 0, 0, 0, 0]
    window_title := [97, 98, 99, 0, 0, 0, 0, 0]
    external_infos := [49, 50, 0, 0, 0, 0, 0, 0]
    cur_win := 0
    subscribed := []
    stdout := []
    stderr := [] }

/-- Atoms for examples. -/
def sample_ewmh : Ewmh :=
  { _NET_DESKTOP_NAMES := 300
    _NET_ACTIVE_WINDOW := 301
    _NET_WM_NAME := 302
    _NET_NUMBER_OF_DESKTOPS := 303
    _NET_CURRENT_DESKTOP := 304 }

/-- Replies for examples: desktop 0 of 1 is named `"1"`, no window is active. -/
def sample_env : Replies :=
  { current_desktop := some 0
    number_of_desktops := some 1
    desktop_names := some [49, 0]
    active_window := none
    ewmh_wm_name := fun _ => none
    icccm_wm_name := fun _ => none
    subscribe_ok := fun _ => true }

/-- Replies for examples: window 5 is active, its `_NET_WM_NAME` is there but empty and its
`WM_NAME` is `"xterm"`. -/
def sample_env_empty_name : Replies :=
  { current_desktop := some 0
    number_of_desktops := some 1
    desktop_names := some [49, 0]
    active_window := some 5
    ewmh_wm_name := fun _ => some []
    icccm_wm_name := fun _ => some [120, 116, 101, 114, 109]
    subscribe_ok := fun _ => true }

/-- Replies for examples: every query fails. -/
def sample_env_failing : Replies :=
  { current_desktop := none
    number_of_desktops := none
    desktop_names := none
    active_window := none
    ewmh_wm_name := fun _ => none
    icccm_wm_name := fun _ => none
    subscribe_ok := fun _ => false }

/-- Replies for examples: window 7 is active and has neither a `_NET_WM_NAME` nor a
`WM_NAME`. -/
def sample_env_unnamed : Replies :=
  { current_desktop := some 0
    number_of_desktops := some 1
    desktop_names := some [49, 0]
    active_window := some 7
    ewmh_wm_name := fun _ => none
    icccm_wm_name := fun _ => none
    subscribe_ok := fun _ => true }

/-- Replies for examples: window 7 is active and its `_NET_WM_NAME` is `"vi"`. -/
def sample_env_named : Replies :=
  { current_desktop := some 0
    number_of_desktops := some 1
    desktop_names := some [49, 0]
    active_window := some 7
    ewmh_wm_name := fun _ => some [118, 105]
    icccm_wm_name := fun _ => none
    subscribe_ok := fun _ => true }

/-- A state for examples that tracks window 5 and is subscribed on the root window 1 and on
window 5; desktop 3 of 4 is current. -/
def sample_state_tracking : State :=
  { sample_state with cur_desktop := 3, num_desktops := 4, cur_win := 5, subscribed := [1, 5] }

/-- The measurer of the specification's scenario: the title
`"a very long window title that overflows"` measures 500 pixels, any other string 8 pixels
per character (so `"1:web"` and `"12:30"` measure 40). -/
def scenario_advance (t : List Nat) : Int :=
  if t = bytes "a very long window title that overflows" then 500 else 8 * (t.length : Int)

/-- The state of the specification's scenario: a 1000 pixel screen, padding 9, desktop name
`"1:web"`, the long title and feed text `"12:30"`. -/
def scenario_state : State :=
  { sample_state with
    desktop_name := bytes "1:web" ++ [0, 0, 0]
    window_title := bytes "a very long window title that overflows" ++ [0]
    external_infos := bytes "12:30" ++ [0, 0, 0] }

/-- A state for examples with an empty title on a screen of 10 pixels, narrower than the
desktop name, the feed text and the padding together. -/
def sample_state_narrow : State :=
  { sample_state with screen_width := 10, window_title := [0, 98, 99, 0, 0, 0, 0, 0] }

/-- A measurer for examples with negative widths, as a negative font size gives them:
-10 pixels per character. -/
def negative_advance (t : List Nat) : Int := -10 * (t.length : Int)

/-- A state for examples on a screen of 11 pixels with the desktop name `"0123456789"` and
the placeholder `" "` as title and feed text. -/
def sample_state_negative : State :=
  { sample_state with
    screen_width := 11
    desktop_name := bytes "0123456789" ++ [0, 0]
    window_title := [32, 0, 0, 0]
    external_infos := [32, 0, 0, 0] }

/-- The sample state with `horiz_padding = 2^30`, for which `4 * horiz_padding` wraps to 0. -/
def sample_state_padding : State := { sample_state with horiz_padding := 1073741824 }

/-! ## Facts about buffers and C strings -/

theorem cstr_length_le (s : List Nat) : (cstr s).length ≤ s.length :=
  (List.takeWhile_prefix _).length_le

theorem cstr_cons_ne (c : Nat) (s : List Nat) (h : c ≠ 0) : cstr (c :: s) = c :: cstr s := by
  simp [cstr, h]

/-- Cutting a buffer at or before its first NUL leaves the prefix of that length. -/
theorem cstr_set_zero (s : List Nat) (k : Nat) (hk : k ≤ (cstr s).length) (hlen : k < s.length) :
    cstr (s.set k 0) = s.take k := by
  induction s generalizing k with
  | nil => simp at hlen
  | cons c t ih =>
    cases k with
    | zero => simp [cstr]
    | succ k =>
      by_cases hc : c = 0
      · subst hc; simp [cstr] at hk
      · rw [cstr_cons_ne c t hc] at hk
        simp only [List.length_cons, Nat.add_lt_add_iff_right, Nat.add_le_add_iff_right] at hk hlen
        simp only [List.set_cons_succ, List.take_succ_cons]
        rw [cstr_cons_ne _ _ hc, ih k hk hlen]

theorem take_cstr (s : List Nat) (k : Nat) (hk : k ≤ (cstr s).length) :
    s.take k = (cstr s).take k := by
  induction s generalizing k with
  | nil => simp [cstr]
  | cons c t ih =>
    cases k with
    | zero => simp
    | succ k =>
      by_cases hc : c = 0
      · subst hc; simp [cstr] at hk
      · rw [cstr_cons_ne c t hc] at hk ⊢
        simp only [List.length_cons, Nat.add_le_add_iff_right] at hk
        simp only [List.take_succ_cons]
        rw [ih k hk]

theorem load_lt (s : List Nat) (i : Nat) (h : i < s.length) :
    load s i = .ok (s.get ⟨i, h⟩) := by
  simp [load, List.getElem?_eq_getElem h]

theorem store_lt (s : List Nat) (i c : Nat) (h : i < s.length) :
    store s i c = .ok (s.set i c) := by
  simp [store, h]

theorem set_restore (s : List Nat) (i c : Nat) (h : i < s.length) :
    (s.set i c).set i (s.get ⟨i, h⟩) = s := by
  induction s generalizing i with
  | nil => simp at h
  | cons a t ih =>
    cases i with
    | zero => simp
    | succ i =>
      have h2 : i < t.length := by simpa using h
      simpa using ih i h2

theorem text_width_ok (advance : List Nat → Int) (s : List Nat)
    (h : (cstr s).length < s.length) : text_width advance s = .ok (advance (cstr s)) := by
  simp [text_width, h]

theorem text_width_set_zero (advance : List Nat → Int) (s : List Nat) (k : Nat)
    (hk : k ≤ (cstr s).length) (hlen : k < s.length) :
    text_width advance (s.set k 0) = .ok (advance ((cstr s).take k)) := by
  unfold text_width
  rw [cstr_set_zero s k hk hlen, ← take_cstr s k hk]
  simp [hlen, Nat.min_eq_left (Nat.le_of_lt hlen)]

/-! ## The binary search of `truncate_text` -/

/-- On bounds inside the title, `truncate_text` returns (with enough fuel) and
cuts the buffer at `cutIdx`. -/
theorem truncate_text_eq (advance : List Nat → Int) (s : List Nat) (width : Int) :
    ∀ (fuel lower upper : Nat), lower ≤ upper → upper < (cstr s).length →
      (cstr s).length < s.length → upper < 2 ^ 31 → upper - lower < fuel →
      truncate_text advance fuel s width lower upper
        = .ok (s.set (cutIdx advance (cstr s) width fuel lower upper) 0) := by
  intro fuel
  induction fuel with
  | zero => intro lower upper _ _ _ _ h; omega
  | succ fuel ih =>
    intro lower upper hlu hup hnul h31 hfuel
    unfold truncate_text cutIdx
    have habs : ABS lower upper = upper - lower := by
      unfold ABS; rw [if_neg (by omega)]
    rw [habs]
    by_cases hd : upper - lower < 2
    · rw [if_pos hd, if_pos hd]
      exact store_lt s lower 0 (by omega)
    · rw [if_neg hd, if_neg hd]
      have hmod : (lower + upper) % 2 ^ 32 / 2 = (lower + upper) / 2 := by
        rw [Nat.mod_eq_of_lt (by omega)]
      have hm1 : lower < (lower + upper) / 2 := by omega
      have hm2 : (lower + upper) / 2 < upper := by omega
      have hmlen : (lower + upper) / 2 < s.length := by omega
      simp only [hmod]
      rw [load_lt s _ hmlen]
      simp only [bind, Except.bind]
      rw [store_lt s _ 0 hmlen]
      simp only []
      rw [text_width_set_zero advance s _ (by omega) hmlen]
      simp only []
      rw [store_lt _ _ _ (by simpa using hmlen), set_restore s _ 0 hmlen]
      simp only []
      by_cases hw : advance ((cstr s).take ((lower + upper) / 2)) < width
      · rw [if_pos hw, if_pos hw]
        exact ih _ _ (by omega) hup hnul h31 (by omega)
      · rw [if_neg hw, if_neg hw]
        exact ih _ _ (by omega) (by omega) hnul (by omega) (by omega)

theorem cutIdx_bounds (advance : List Nat → Int) (t : List Nat) (width : Int) :
    ∀ (fuel lower upper : Nat), lower ≤ upper →
      lower ≤ cutIdx advance t width fuel lower upper
        ∧ cutIdx advance t width fuel lower upper ≤ upper := by
  intro fuel
  induction fuel with
  | zero => intro lower upper h; simp [cutIdx, h]
  | succ fuel ih =>
    intro lower upper h
    unfold cutIdx
    by_cases hd : upper - lower < 2
    · rw [if_pos hd]; exact ⟨le_refl _, h⟩
    · rw [if_neg hd]
      simp only []
      split
      · have := ih ((lower + upper) / 2) upper (by omega); omega
      · have := ih lower ((lower + upper) / 2) (by omega); omega

/-- The cut is at `lower` or at a probed prefix that measured below `width`. -/
theorem cutIdx_fits (advance : List Nat → Int) (t : List Nat) (width : Int) :
    ∀ (fuel lower upper : Nat),
      cutIdx advance t width fuel lower upper = lower
        ∨ advance (t.take (cutIdx advance t width fuel lower upper)) < width := by
  intro fuel
  induction fuel with
  | zero => intro lower upper; simp [cutIdx]
  | succ fuel ih =>
    intro lower upper
    unfold cutIdx
    by_cases hd : upper - lower < 2
    · rw [if_pos hd]; exact Or.inl rfl
    · rw [if_neg hd]
      simp only []
      by_cases hw : advance (t.take ((lower + upper) / 2)) < width
      · rw [if_pos hw]
        rcases ih ((lower + upper) / 2) upper with h | h
        · right; rw [h]; exact hw
        · right; exact h
      · rw [if_neg hw]
        exact ih lower ((lower + upper) / 2)

/-- A smaller width never cuts later. -/
theorem cutIdx_mono (advance : List Nat → Int) (t : List Nat) (w1 w2 : Int) (hw : w1 ≤ w2) :
    ∀ (fuel lower upper : Nat), lower ≤ upper →
      cutIdx advance t w1 fuel lower upper ≤ cutIdx advance t w2 fuel lower upper := by
  intro fuel
  induction fuel with
  | zero => intro lower upper _; simp [cutIdx]
  | succ fuel ih =>
    intro lower upper h
    unfold cutIdx
    by_cases hd : upper - lower < 2
    · rw [if_pos hd, if_pos hd]
    · rw [if_neg hd, if_neg hd]
      simp only []
      by_cases h1 : advance (t.take ((lower + upper) / 2)) < w1
      · rw [if_pos h1, if_pos (lt_of_lt_of_le h1 hw)]
        exact ih _ _ (by omega)
      · rw [if_neg h1]
        by_cases h2 : advance (t.take ((lower + upper) / 2)) < w2
        · rw [if_pos h2]
          have a := cutIdx_bounds advance t w1 fuel lower ((lower + upper) / 2) (by omega)
          have b := cutIdx_bounds advance t w2 fuel ((lower + upper) / 2) upper (by omega)
          omega
        · rw [if_neg h2]
          exact ih _ _ (by omega)

/-- The truncation step on a non-empty NUL-terminated title, when it truncates. -/
theorem truncate_step_cut (advance : List Nat → Int) (fuel : Nat) (s : List Nat) (w : Int)
    (hnul : (cstr s).length < s.length) (hsize : s.length ≤ 2 ^ 31) (hfuel : s.length ≤ fuel)
    (hne : cstr s ≠ []) (hgt : advance (cstr s) > w) :
    truncate_step advance fuel s (advance (cstr s)) w
      = .ok (s.set (cutIdx advance (cstr s) w fuel 0 ((cstr s).length - 1)) 0,
          advance ((cstr s).take (cutIdx advance (cstr s) w fuel 0 ((cstr s).length - 1)))) := by
  have hpos : 0 < (cstr s).length := List.length_pos.mpr hne
  have hup : ((cstr s).length + 2 ^ 64 - 1) % 2 ^ 64 % 2 ^ 32 = (cstr s).length - 1 := by omega
  have hb := cutIdx_bounds advance (cstr s) w fuel 0 ((cstr s).length - 1) (Nat.zero_le _)
  unfold truncate_step
  rw [if_pos hgt]
  simp only [strlen, if_pos hnul, bind, Except.bind, hup]
  rw [truncate_text_eq advance s w fuel 0 _ (Nat.zero_le _) (by omega) hnul (by omega) (by omega)]
  simp only []
  rw [text_width_set_zero advance s _ (by omega) (by omega)]
  rfl

/-- What `fit` returns on a NUL-terminated title that is non-empty or does not need
truncation. -/
theorem fit_eq (advance : List Nat → Int) (fuel : Nat) (s : List Nat) (w : Int)
    (hnul : (cstr s).length < s.length) (hsize : s.length ≤ 2 ^ 31) (hfuel : s.length ≤ fuel)
    (hne : cstr s ≠ [] ∨ advance [] ≤ w) :
    fit advance fuel s w
      = .ok (if advance (cstr s) > w
          then s.set (cutIdx advance (cstr s) w fuel 0 ((cstr s).length - 1)) 0 else s) := by
  unfold fit
  rw [text_width_ok advance s hnul]
  simp only [bind, Except.bind]
  by_cases hgt : advance (cstr s) > w
  · have hne2 : cstr s ≠ [] := by
      rcases hne with h | h
      · exact h
      · intro he; rw [he] at hgt; omega
    rw [truncate_step_cut advance fuel s w hnul hsize hfuel hne2 hgt, if_pos hgt]
    rfl
  · rw [if_neg hgt]
    simp [truncate_step, hgt, pure, Except.pure]

/-- The string left by a cut at or before the first NUL. -/
theorem cstr_cut (s : List Nat) (k : Nat) (hnul : (cstr s).length < s.length)
    (hk : k ≤ (cstr s).length) : cstr (s.set k 0) = (cstr s).take k := by
  rw [cstr_set_zero s k hk (by omega), take_cstr s k hk]

/-! ## Claims about the truncation step -/

/-- C1: for a NUL-terminated title buffer `s`, a width `w >= 0` and a measurer with
`advance "" = 0`, `fit` returns a buffer whose string is a prefix of the title and measures
at most `w`, and it returns `s` itself when the title already measures at most `w`. -/
theorem fit_prefix_fits (advance : List Nat → Int) (fuel : Nat) (s : List Nat) (w : Int)
    (hnul : (cstr s).length < s.length) (hsize : s.length ≤ 2 ^ 31) (hfuel : s.length ≤ fuel)
    (h0 : advance [] = 0) (hw : 0 ≤ w) :
    ∃ r, fit advance fuel s w = .ok r ∧ cstr r <+: cstr s ∧ advance (cstr r) ≤ w
      ∧ (advance (cstr s) ≤ w → r = s) := by
  rw [fit_eq advance fuel s w hnul hsize hfuel (Or.inr (by omega))]
  refine ⟨_, rfl, ?_⟩
  by_cases hgt : advance (cstr s) > w
  · rw [if_pos hgt]
    have hb := cutIdx_bounds advance (cstr s) w fuel 0 ((cstr s).length - 1) (Nat.zero_le _)
    rw [cstr_cut s _ hnul (by omega)]
    refine ⟨List.take_prefix _ _, ?_, fun h => absurd h (by omega)⟩
    rcases cutIdx_fits advance (cstr s) w fuel 0 ((cstr s).length - 1) with h | h
    · rw [h]; simp [h0, hw]
    · exact le_of_lt h
  · rw [if_neg hgt]
    exact ⟨List.prefix_refl _, by omega, fun _ => rfl⟩

theorem fit_prefix_fits_witness :
    ∃ r, fit (fun t => 10 * (t.length : Int)) 4 [97, 98, 99, 0] 15 = .ok r
      ∧ cstr r <+: cstr [97, 98, 99, 0] ∧ (fun t => 10 * (t.length : Int)) (cstr r) ≤ 15
      ∧ ((fun t => 10 * (t.length : Int)) (cstr [97, 98, 99, 0]) ≤ 15 → r = [97, 98, 99, 0]) :=
  fit_prefix_fits (fun t => 10 * (t.length : Int)) 4 [97, 98, 99, 0] 15
    (by decide) (by decide) (by decide) rfl (by decide)

/-- C2 (the code at a failing input): with 10 pixels per character and 15 pixels available the
title `"ab"` does not fit and its prefix `"a"` does, yet `truncate_text(s, 15, 0, 1)` cuts at
index 0 and leaves the empty string; with exactly 10 pixels available the title `"abc"` is cut
to the empty string as well, although `"a"` measures 10. -/
theorem truncate_text_not_maximal :
    (fun t => 10 * (t.length : Int)) [97, 98] > 15
      ∧ (fun t => 10 * (t.length : Int)) [97] ≤ 15
      ∧ fit (fun t => 10 * (t.length : Int)) 4 [97, 98, 0, 0] 15 = .ok [0, 98, 0, 0]
      ∧ truncate_text (fun t => 10 * (t.length : Int)) 4 [97, 98, 0, 0] 15 0 1
          = .ok [0, 98, 0, 0]
      ∧ truncate_text (fun t => 10 * (t.length : Int)) 4 [97, 98, 99, 0] 10 0 2
          = .ok [0, 98, 99, 0] := by
  refine ⟨by decide, by decide, rfl, rfl, rfl⟩

/-- C8: for a NUL-terminated title buffer, a width `w >= 0` and a measurer with
`advance "" = 0`, running `fit` on the result of `fit` changes nothing. -/
theorem fit_idempotent (advance : List Nat → Int) (fuel : Nat) (s : List Nat) (w : Int)
    (hnul : (cstr s).length < s.length) (hsize : s.length ≤ 2 ^ 31) (hfuel : s.length ≤ fuel)
    (h0 : advance [] = 0) (hw : 0 ≤ w) :
    ∃ r, fit advance fuel s w = .ok r ∧ fit advance fuel r w = .ok r := by
  rw [fit_eq advance fuel s w hnul hsize hfuel (Or.inr (by omega))]
  refine ⟨_, rfl, ?_⟩
  by_cases hgt : advance (cstr s) > w
  · rw [if_pos hgt]
    have hb := cutIdx_bounds advance (cstr s) w fuel 0 ((cstr s).length - 1) (Nat.zero_le _)
    have hc := cstr_cut s _ hnul (show cutIdx advance (cstr s) w fuel 0 ((cstr s).length - 1)
      ≤ (cstr s).length by omega)
    have hlen : (cstr (s.set (cutIdx advance (cstr s) w fuel 0 ((cstr s).length - 1)) 0)).length
        < (s.set (cutIdx advance (cstr s) w fuel 0 ((cstr s).length - 1)) 0).length := by
      rw [hc, List.length_take, List.length_set]; omega
    rw [fit_eq advance fuel _ w hlen (by simpa using hsize) (by simpa using hfuel)
      (Or.inr (by omega))]
    have hfit : ¬ advance (cstr (s.set (cutIdx advance (cstr s) w fuel 0
        ((cstr s).length - 1)) 0)) > w := by
      rw [hc]
      rcases cutIdx_fits advance (cstr s) w fuel 0 ((cstr s).length - 1) with h | h
      · rw [h]; simp [h0, hw]
      · omega
    rw [if_neg hfit]
  · rw [if_neg hgt]
    rw [fit_eq advance fuel s w hnul hsize hfuel (Or.inr (by omega)), if_neg hgt]

theorem fit_idempotent_witness :
    ∃ r, fit (fun t => 10 * (t.length : Int)) 4 [97, 98, 99, 0] 15 = .ok r
      ∧ fit (fun t => 10 * (t.length : Int)) 4 r 15 = .ok r :=
  fit_idempotent (fun t => 10 * (t.length : Int)) 4 [97, 98, 99, 0] 15
    (by decide) (by decide) (by decide) rfl (by decide)

/-! ## `strncpy` and `copy_prop` -/

theorem pad_zero_spec : ∀ (k : Nat) (dest : List Nat) (i : Nat), i + k ≤ dest.length →
    ∃ d, pad_zero dest i k = .ok d ∧ d.length = dest.length
      ∧ ∀ j, j < i → d[j]? = dest[j]? := by
  intro k
  induction k with
  | zero => intro dest i _; exact ⟨dest, rfl, rfl, fun _ _ => rfl⟩
  | succ k ih =>
    intro dest i h
    unfold pad_zero
    rw [store_lt dest i 0 (by omega)]
    simp only [bind, Except.bind]
    obtain ⟨d, hd, hl, hj⟩ := ih (dest.set i 0) (i + 1) (by rw [List.length_set]; omega)
    refine ⟨d, hd, by simpa using hl, fun j hji => ?_⟩
    rw [hj j (by omega), List.getElem?_set_ne (by omega)]

/-- Copying with `strncpy` from a source that holds the NUL-free string `s` and a NUL at offset `i`, with
room for more than `|s|` bytes: the string and a NUL arrive at offset `i` of the destination
and nothing before offset `i` changes. -/
theorem strncpy_from_spec (src : List Nat) : ∀ (s : List Nat) (dest : List Nat) (i k : Nat)
    (rest : List Nat), (∀ c ∈ s, c ≠ 0) → src.drop i = s ++ 0 :: rest → s.length < k →
    i + k ≤ dest.length →
    ∃ d, strncpy_from src dest i k = .ok d ∧ d.length = dest.length
      ∧ (∀ j, j < i → d[j]? = dest[j]?)
      ∧ (∀ j, j < s.length → d[i + j]? = s[j]?)
      ∧ d[i + s.length]? = some 0 := by
  intro s
  induction s with
  | nil =>
    intro dest i k rest _ hsrc hk hlen
    obtain ⟨k, rfl⟩ : ∃ k', k = k' + 1 := ⟨k - 1, by simp at hk; omega⟩
    have hget : src[i]? = some 0 := by
      have := congrArg (fun l => l[0]?) hsrc
      simpa [List.getElem?_drop] using this
    unfold strncpy_from
    simp only [load, List.get?_eq_getElem?, hget, bind, Except.bind]
    rw [store_lt dest i 0 (by omega)]
    simp only [if_true]
    obtain ⟨d, hd, hl, hj⟩ := pad_zero_spec k (dest.set i 0) (i + 1) (by rw [List.length_set]; omega)
    refine ⟨d, hd, by simpa using hl, fun j hji => ?_, fun j hj0 => by simp at hj0, ?_⟩
    · rw [hj j (by omega), List.getElem?_set_ne (by omega)]
    · rw [List.length_nil, Nat.add_zero, hj i (by omega)]
      simp [List.getElem?_set_self, show i < dest.length by omega]
  | cons c s ih =>
    intro dest i k rest hs hsrc hk hlen
    obtain ⟨k, rfl⟩ : ∃ k', k = k' + 1 := ⟨k - 1, by simp at hk; omega⟩
    have hget : src[i]? = some c := by
      have := congrArg (fun l => l[0]?) hsrc
      simpa [List.getElem?_drop] using this
    have hdrop : src.drop (i + 1) = s ++ 0 :: rest := by
      have := congrArg List.tail hsrc
      simpa [List.tail_drop] using this
    have hc : c ≠ 0 := hs c (List.mem_cons_self _ _)
    unfold strncpy_from
    simp only [load, List.get?_eq_getElem?, hget, bind, Except.bind]
    rw [store_lt dest i c (by omega)]
    simp only [if_neg hc]
    obtain ⟨d, hd, hl, hj, hjs, hz⟩ := ih (dest.set i c) (i + 1) k rest
      (fun x hx => hs x (List.mem_cons_of_mem _ hx)) hdrop
      (by simpa using hk) (by rw [List.length_set]; omega)
    refine ⟨d, hd, by simpa using hl, fun j hji => ?_, fun j hjl => ?_, ?_⟩
    · rw [hj j (by omega), List.getElem?_set_ne (by omega)]
    · cases j with
      | zero =>
        rw [Nat.add_zero, hj i (by omega)]
        simp [List.getElem?_set_self, show i < dest.length by omega]
      | succ j =>
        have := hjs j (by simpa using hjl)
        rw [show i + (j + 1) = i + 1 + j by omega, this]
        simp
    · rw [show i + (c :: s).length = i + 1 + s.length by simp; omega]
      exact hz

/-- A buffer that starts with the NUL-free string `s` followed by a NUL holds `s`. -/
theorem cstr_of_getElem : ∀ (s d : List Nat), (∀ c ∈ s, c ≠ 0) →
    (∀ j, j < s.length → d[j]? = s[j]?) → d[s.length]? = some 0 → cstr d = s := by
  intro s
  induction s with
  | nil =>
    intro d _ _ hz
    cases d with
    | nil => simp at hz
    | cons a d => simp at hz; subst hz; simp [cstr]
  | cons c s ih =>
    intro d hs hj hz
    cases d with
    | nil => simp at hz
    | cons a d =>
      have ha : a = c := by simpa using hj 0 (by simp)
      subst ha
      rw [cstr_cons_ne a d (hs a (List.mem_cons_self _ _))]
      congr 1
      refine ih d (fun x hx => hs x (List.mem_cons_of_mem _ hx)) (fun j hjl => ?_) ?_
      · simpa using hj (j + 1) (by simpa using hjl)
      · simpa using hz

theorem cstr_append_zero (s rest : List Nat) (hs : ∀ c ∈ s, c ≠ 0) :
    cstr (s ++ 0 :: rest) = s := by
  induction s with
  | nil => simp [cstr]
  | cons c s ih =>
    rw [List.cons_append, cstr_cons_ne _ _ (hs c (List.mem_cons_self _ _)),
      ih (fun x hx => hs x (List.mem_cons_of_mem _ hx))]

theorem strncpy_cstr (dest src s rest : List Nat) (k : Nat) (hs : ∀ c ∈ s, c ≠ 0)
    (hsrc : src = s ++ 0 :: rest) (hk : s.length < k) (hlen : k ≤ dest.length) :
    ∃ d, strncpy dest src k = .ok d ∧ d.length = dest.length ∧ cstr d = s
      ∧ (∀ j, j < s.length → d[j]? = s[j]?) ∧ d[s.length]? = some 0 := by
  obtain ⟨d, hd, hl, -, hj, hz⟩ := strncpy_from_spec src s dest 0 k rest hs
    (by simpa using hsrc) hk (by omega)
  simp only [Nat.zero_add] at hj hz
  exact ⟨d, hd, hl, cstr_of_getElem s d hs hj hz, hj, hz⟩

/-- The single-string branch of `copy_prop` on a source that starts with the NUL-free string
`s` and a NUL, with stated length `|s| + 1` below `BUFSIZ`. -/
theorem copy_prop_single_spec (BUFSIZ : Nat) (dest src s rest : List Nat)
    (hs : ∀ c ∈ s, c ≠ 0) (hsrc : src = s ++ 0 :: rest) (hB : s.length + 1 < BUFSIZ)
    (hB31 : BUFSIZ < 2 ^ 31) (hdest : dest.length = BUFSIZ) :
    ∃ d, copy_prop_single BUFSIZ dest src ((s.length : Int) + 1) = .ok d
      ∧ d.length = BUFSIZ ∧ cstr d = s := by
  have hmin : MIN ((s.length : Int) + 1) BUFSIZ = (s.length : Int) + 1 := by
    unfold MIN; rw [if_neg (by omega)]
  have hsz : size_t_of_int ((s.length : Int) + 1) = s.length + 1 := by
    unfold size_t_of_int; omega
  obtain ⟨d, hd, hl, -, hj, hz⟩ := strncpy_cstr dest src s rest (s.length + 1) hs hsrc
    (by omega) (by omega)
  unfold copy_prop_single
  rw [hmin, hsz, hd]
  simp only [bind, Except.bind]
  have hidx : ((s.length : Int) + 1).toNat = s.length + 1 := by omega
  unfold store_at
  rw [if_pos ⟨by omega, by omega⟩, hidx]
  refine ⟨_, rfl, by simp [hl, hdest], ?_⟩
  refine cstr_of_getElem s _ hs (fun j hjl => ?_) ?_
  · rw [List.getElem?_set_ne (by omega)]; exact hj j hjl
  · rw [List.getElem?_set_ne (by omega)]; exact hz

theorem concat_strings_append (a b : List (List Nat)) :
    concat_strings (a ++ b) = concat_strings a ++ concat_strings b := by
  induction a with
  | nil => rfl
  | cons s a ih => simp [concat_strings, ih]

theorem strlen_append_zero (s rest : List Nat) (hs : ∀ c ∈ s, c ≠ 0) :
    strlen (s ++ 0 :: rest) = .ok s.length := by
  unfold strlen
  rw [cstr_append_zero s rest hs]
  simp

/-- The skipping loop of `copy_prop` on `s_0 NUL ... s_(n-1) NUL`: it stops after
`min idx (n - 1)` strings, at the start of that string. -/
theorem copy_prop_loop_spec (ss : List (List Nat)) (idx : Nat)
    (hs : ∀ s ∈ ss, ∀ c ∈ s, c ≠ 0) :
    ∀ (fuel : Nat) (pre post : List (List Nat)), ss = pre ++ post → post ≠ [] →
      pre.length ≤ min idx (ss.length - 1) → min idx (ss.length - 1) - pre.length < fuel →
      copy_prop_loop (concat_strings ss) ((concat_strings ss).length : Nat) idx ss.length fuel
          ((concat_strings pre).length : Nat) (pre.length : Nat)
        = .ok (((concat_strings (ss.take (min idx (ss.length - 1)))).length : Nat),
            ((min idx (ss.length - 1) : Nat) : Int)) := by
  intro fuel
  induction fuel with
  | zero => intro pre post _ _ _ h; omega
  | succ fuel ih =>
    intro pre post hss hpost hle hfuel
    have hlen : ss.length = pre.length + post.length := by rw [hss, List.length_append]
    unfold copy_prop_loop
    by_cases hlt : pre.length < min idx (ss.length - 1)
    · obtain ⟨s, post2, rfl⟩ : ∃ s post2, post = s :: post2 := by
        cases post with
        | nil => exact absurd rfl hpost
        | cons s p => exact ⟨s, p, rfl⟩
      have hpost2 : post2 ≠ [] := by
        intro h; subst h; simp at hlen; omega
      have hsn : ∀ c ∈ s, c ≠ 0 := hs s (by rw [hss]; simp)
      have hsrc : (concat_strings ss).drop (concat_strings pre).length
          = s ++ 0 :: concat_strings post2 := by
        rw [hss, concat_strings_append, List.drop_left]; rfl
      have hpos : (concat_strings pre).length < (concat_strings ss).length := by
        rw [hss, concat_strings_append, List.length_append]
        simp [concat_strings]
      rw [if_pos ⟨by omega, by omega, by omega⟩]
      simp only [Int.toNat_ofNat, hsrc, strlen_append_zero s _ hsn, bind, Except.bind]
      have h := ih (pre ++ [s]) post2 (by simp [hss]) hpost2 (by simp; omega) (by simp; omega)
      have e1 : ((concat_strings (pre ++ [s])).length : Int)
          = ((concat_strings pre).length : Int) + ((s.length : Int) + 1) := by
        rw [concat_strings_append]; simp [concat_strings]
      have e2 : ((pre ++ [s]).length : Int) = (pre.length : Int) + 1 := by simp
      rw [e1, e2] at h
      exact h
    · have heq : pre.length = min idx (ss.length - 1) := by omega
      rw [if_neg (by omega)]
      have htake : ss.take (min idx (ss.length - 1)) = pre := by
        rw [← heq, hss, List.take_left]
      rw [htake, ← heq]

/-- Running `copy_prop` on `ss = pre ++ s :: post` where `s` is the string number `min idx (n - 1)`:
`dest` receives `s`. -/
theorem copy_prop_pick (BUFSIZ fuel : Nat) (dest : List Nat) (ss pre post : List (List Nat))
    (s : List Nat) (idx : Nat) (hss : ss = pre ++ s :: post)
    (hm : pre.length = min idx (ss.length - 1)) (hs : ∀ s ∈ ss, ∀ c ∈ s, c ≠ 0)
    (hlen : (concat_strings ss).length < BUFSIZ) (hB31 : BUFSIZ < 2 ^ 31)
    (hdest : dest.length = BUFSIZ) (hfuel : ss.length ≤ fuel) :
    ∃ d, copy_prop BUFSIZ fuel dest (concat_strings ss) ((concat_strings ss).length : Nat)
        idx ss.length = .ok d ∧ cstr d = s := by
  have hn : ss.length = pre.length + (post.length + 1) := by simp [hss]
  have hsn : ∀ c ∈ s, c ≠ 0 := hs s (by simp [hss])
  have hc : concat_strings ss = concat_strings pre ++ (s ++ 0 :: concat_strings post) := by
    rw [hss, concat_strings_append]; rfl
  have hsrc : (concat_strings ss).drop (concat_strings pre).length
      = s ++ 0 :: concat_strings post := by
    rw [hc, List.drop_left]
  have htot : (concat_strings ss).length
      = (concat_strings pre).length + (s.length + 1 + (concat_strings post).length) := by
    rw [hc]; simp; omega
  have htake : ss.take (min idx (ss.length - 1)) = pre := by
    rw [← hm, hss, List.take_left]
  unfold copy_prop
  by_cases h1 : ((ss.length : Nat) : Int) ≤ 1
  · -- a single string
    have hpre : pre = [] := List.length_eq_zero.mp (by omega)
    have hpost : post = [] := List.length_eq_zero.mp (by omega)
    rw [if_pos h1]
    have hsrc0 : concat_strings ss = s ++ 0 :: concat_strings post := by
      rw [hc, hpre]; rfl
    have hlen0 : (((concat_strings ss).length : Nat) : Int) = (s.length : Int) + 1 := by
      rw [htot, hpre, hpost]; simp [concat_strings]
    rw [hlen0]
    obtain ⟨d, hd, -, hcd⟩ := copy_prop_single_spec BUFSIZ dest (concat_strings ss) s _ hsn hsrc0
      (by omega) hB31 hdest
    exact ⟨d, hd, hcd⟩
  · rw [if_neg h1]
    have hne : ss ≠ [] := by rw [hss]; simp
    have hloop := copy_prop_loop_spec ss idx hs fuel [] ss rfl hne (Nat.zero_le _)
      (by simp only [List.length_nil]; omega)
    simp only [concat_strings, List.length_nil, Nat.cast_zero] at hloop
    rw [hloop, htake]
    simp only [bind, Except.bind, Int.toNat_ofNat, hsrc]
    by_cases hlast : ((min idx (ss.length - 1) : Nat) : Int) = (ss.length : Int) - 1
    · -- the clamped index is the last one
      rw [if_pos hlast]
      have hpost : post = [] := List.length_eq_zero.mp (by omega)
      have hl : (((concat_strings ss).length : Nat) : Int) - ((concat_strings pre).length : Nat)
          = (s.length : Int) + 1 := by
        rw [hpost] at htot
        simp only [concat_strings, List.length_nil] at htot
        omega
      rw [hl]
      obtain ⟨d, hd, -, hcd⟩ := copy_prop_single_spec BUFSIZ dest _ s _ hsn rfl
        (by omega) hB31 hdest
      exact ⟨d, hd, hcd⟩
    · rw [if_neg hlast]
      obtain ⟨d, hd, -, hcd, -⟩ := strncpy_cstr dest _ s _ BUFSIZ hsn rfl (by omega) (by omega)
      exact ⟨d, hd, hcd⟩

/-- C3: for `n >= 1` NUL-free strings whose concatenation as NUL-terminated strings is
shorter than `BUFSIZ`, `copy_prop` with `num_itm = n` returns, and `dest` then holds the
`idx`-th string when `idx <= n - 1` and the last string when `idx >= n - 1`; with `n = 1`
it holds the only string, whatever `idx` is. -/
theorem copy_prop_roundtrip (BUFSIZ fuel : Nat) (dest : List Nat) (ss : List (List Nat))
    (idx : Nat) (hne : ss ≠ []) (hs : ∀ s ∈ ss, ∀ c ∈ s, c ≠ 0)
    (hlen : (concat_strings ss).length < BUFSIZ) (hB31 : BUFSIZ < 2 ^ 31)
    (hdest : dest.length = BUFSIZ) (hfuel : ss.length ≤ fuel) :
    ∃ d, copy_prop BUFSIZ fuel dest (concat_strings ss) ((concat_strings ss).length : Nat)
        idx ss.length = .ok d
      ∧ (idx < ss.length → ss[idx]? = some (cstr d))
      ∧ (ss.length - 1 ≤ idx → ss.getLast? = some (cstr d))
      ∧ (ss.length = 1 → ss = [cstr d]) := by
  have hpos : 0 < ss.length := List.length_pos.mpr hne
  have hm : min idx (ss.length - 1) < ss.length := by omega
  have hsplit : ss = ss.take (min idx (ss.length - 1))
      ++ ss[min idx (ss.length - 1)] :: ss.drop (min idx (ss.length - 1) + 1) := by
    rw [← List.drop_eq_getElem_cons hm, List.take_append_drop]
  obtain ⟨d, hd, hc⟩ := copy_prop_pick BUFSIZ fuel dest ss _ _ _ idx hsplit
    (by rw [List.length_take]; omega) hs hlen hB31 hdest hfuel
  refine ⟨d, hd, fun hi => ?_, fun hi => ?_, fun h1 => ?_⟩
  · rw [hc, List.getElem?_eq_getElem hi]
    simp [show min idx (ss.length - 1) = idx by omega]
  · rw [hc, List.getLast?_eq_getElem?, List.getElem?_eq_getElem (by omega)]
    simp [show min idx (ss.length - 1) = ss.length - 1 by omega]
  · rw [hc]
    match ss, h1 with
    | [s], _ => simp

theorem copy_prop_roundtrip_witness :
    ∃ d, copy_prop 16 3 (List.replicate 16 7) (concat_strings [[49], [50, 51], [52]])
        ((concat_strings [[49], [50, 51], [52]]).length : Nat) (1 : Nat)
        ([[49], [50, 51], [52]] : List (List Nat)).length = .ok d
      ∧ (1 < ([[49], [50, 51], [52]] : List (List Nat)).length
          → ([[49], [50, 51], [52]] : List (List Nat))[1]? = some (cstr d))
      ∧ (([[49], [50, 51], [52]] : List (List Nat)).length - 1 ≤ 1
          → ([[49], [50, 51], [52]] : List (List Nat)).getLast? = some (cstr d))
      ∧ (([[49], [50, 51], [52]] : List (List Nat)).length = 1
          → ([[49], [50, 51], [52]] : List (List Nat)) = [cstr d]) :=
  copy_prop_roundtrip 16 3 (List.replicate 16 7) [[49], [50, 51], [52]] 1
    (by decide) (by decide) (by decide) (by decide) (by decide) (by decide)

/-- The call of `strncpy` returns whenever the source can be read up to `n` bytes and the destination
has room for `n` bytes. -/
theorem strncpy_from_ok (src : List Nat) : ∀ (k : Nat) (dest : List Nat) (i : Nat),
    i + k ≤ src.length → i + k ≤ dest.length →
    ∃ d, strncpy_from src dest i k = .ok d ∧ d.length = dest.length := by
  intro k
  induction k with
  | zero => intro dest i _ _; exact ⟨dest, rfl, rfl⟩
  | succ k ih =>
    intro dest i hs hd
    unfold strncpy_from
    rw [load_lt src i (by omega)]
    simp only [bind, Except.bind]
    rw [store_lt dest i _ (by omega)]
    simp only []
    split
    · obtain ⟨d, h, hl, -⟩ := pad_zero_spec k (dest.set i (src.get ⟨i, by omega⟩)) (i + 1)
        (by rw [List.length_set]; omega)
      exact ⟨d, h, by simpa using hl⟩
    · obtain ⟨d, h, hl⟩ := ih (dest.set i (src.get ⟨i, by omega⟩)) (i + 1) (by omega)
        (by rw [List.length_set]; omega)
      exact ⟨d, h, by simpa using hl⟩

/-- C4 (the code at the failing inputs): when the stated length `len` is `BUFSIZ` or more,
the source really has `BUFSIZ` bytes and `num_itm <= 1`, `copy_prop` copies `BUFSIZ` bytes
and then writes the terminator `dest[len]`, at an index outside of the `BUFSIZ`-byte field. -/
theorem copy_prop_writes_past_end (BUFSIZ fuel : Nat) (dest src : List Nat) (len idx num_itm : Int)
    (hdest : dest.length = BUFSIZ) (hsrc : BUFSIZ ≤ src.length) (hlen : (BUFSIZ : Int) ≤ len)
    (hB31 : BUFSIZ < 2 ^ 31) (hnum : num_itm ≤ 1) :
    copy_prop BUFSIZ fuel dest src len idx num_itm = .error (.outOfBounds len) := by
  unfold copy_prop copy_prop_single
  rw [if_pos hnum]
  have hmin : MIN len BUFSIZ = BUFSIZ := by
    unfold MIN; split <;> omega
  have hsz : size_t_of_int (BUFSIZ : Int) = BUFSIZ := by
    unfold size_t_of_int; omega
  obtain ⟨d, hd, hl⟩ := strncpy_from_ok src BUFSIZ dest 0 (by omega) (by omega)
  unfold strncpy
  rw [hmin, hsz, hd]
  simp only [bind, Except.bind]
  unfold store_at
  rw [if_neg (by omega)]

theorem copy_prop_writes_past_end_witness :
    copy_prop 4 1 [32, 0, 0, 0] [97, 98, 99, 100, 101] 5 0 1 = .error (.outOfBounds 5) :=
  copy_prop_writes_past_end 4 1 [32, 0, 0, 0] [97, 98, 99, 100, 101] 5 0 1
    (by decide) (by decide) (by decide) (by decide) (by decide)

/-! ## Positions -/

theorem tdiv_two (x : Int) : Int.tdiv x 2 = if 0 ≤ x then x / 2 else -((-x) / 2) := by
  split
  · exact Int.tdiv_eq_ediv (by assumption) (by decide)
  · have h : x = -(-x) := by omega
    rw [h, Int.neg_tdiv, Int.tdiv_eq_ediv (by omega) (by decide)]
    simp

/-- The truncation step on a NUL-terminated title, for a measurer with `advance "" = 0`
and a width `w >= 0`: it returns a buffer and its width, which is at most `w`. -/
theorem truncate_step_fits (advance : List Nat → Int) (fuel : Nat) (s : List Nat) (w : Int)
    (hnul : (cstr s).length < s.length) (hsize : s.length ≤ 2 ^ 31) (hfuel : s.length ≤ fuel)
    (h0 : advance [] = 0) (hw : 0 ≤ w) :
    ∃ t, truncate_step advance fuel s (advance (cstr s)) w = .ok (t, advance (cstr t))
      ∧ advance (cstr t) ≤ w := by
  by_cases hgt : advance (cstr s) > w
  · have hne : cstr s ≠ [] := by
      intro he; rw [he] at hgt; omega
    have hb := cutIdx_bounds advance (cstr s) w fuel 0 ((cstr s).length - 1) (Nat.zero_le _)
    have hc := cstr_cut s _ hnul (show cutIdx advance (cstr s) w fuel 0 ((cstr s).length - 1)
      ≤ (cstr s).length by omega)
    refine ⟨s.set (cutIdx advance (cstr s) w fuel 0 ((cstr s).length - 1)) 0, ?_, ?_⟩
    · rw [truncate_step_cut advance fuel s w hnul hsize hfuel hne hgt, hc]
    · rw [hc]
      rcases cutIdx_fits advance (cstr s) w fuel 0 ((cstr s).length - 1) with h | h
      · rw [h]; simp [h0, hw]
      · exact le_of_lt h
  · refine ⟨s, ?_, by omega⟩
    unfold truncate_step
    rw [if_neg hgt]; rfl

theorem bind_eq_ok {α β : Type} (x : Except Fault α) (f : α → Except Fault β) (b : β)
    (h : (x >>= f) = .ok b) : ∃ a, x = .ok a ∧ f a = .ok b := by
  cases x with
  | error e => simp [bind, Except.bind] at h
  | ok a => exact ⟨a, rfl, h⟩

theorem output_infos_stdout (advance : List Nat → Int) (fuel : Nat) (st st2 : State)
    (h : output_infos advance fuel st = .ok st2) :
    st2.stdout.length = st.stdout.length + 1 := by
  unfold output_infos at h
  obtain ⟨⟨t, l, r, c⟩, -, h2⟩ := bind_eq_ok _ _ _ h
  simp only [pure, Except.pure, Except.ok.injEq] at h2
  rw [← h2]; simp

theorem update_desktop_name_stdout (BUFSIZ fuel : Nat) (env : Replies) (st st2 : State)
    (h : update_desktop_name BUFSIZ fuel env st = .ok st2) : st2.stdout = st.stdout := by
  unfold update_desktop_name at h
  split at h <;>
  · obtain ⟨d, -, h2⟩ := bind_eq_ok _ _ _ h
    simp only [pure, Except.pure, Except.ok.injEq] at h2
    rw [← h2]

theorem track_window_stdout (env : Replies) (win : Nat) (st : State) :
    (track_window env win st).stdout = st.stdout := by
  unfold track_window
  simp only []
  split <;> rfl

theorem update_window_title_stdout (BUFSIZ : Nat) (env : Replies) (st st2 : State)
    (h : update_window_title BUFSIZ env st = .ok st2) : st2.stdout = st.stdout := by
  unfold update_window_title at h
  split at h
  · obtain ⟨d, -, h2⟩ := bind_eq_ok _ _ _ h
    simp only [pure, Except.pure, Except.ok.injEq] at h2
    rw [← h2]
  · simp only [] at h
    split at h
    · obtain ⟨d, -, h2⟩ := bind_eq_ok _ _ _ h
      simp only [pure, Except.pure, Except.ok.injEq] at h2
      rw [← h2, track_window_stdout]
    · obtain ⟨d, -, h2⟩ := bind_eq_ok _ _ _ h
      simp only [pure, Except.pure, Except.ok.injEq] at h2
      rw [← h2]

theorem update_num_desktops_eq (env : Replies) (st : State) :
    update_num_desktops env st
      = { st with num_desktops := env.number_of_desktops.getD st.num_desktops } := by
  unfold update_num_desktops
  cases env.number_of_desktops <;> rfl

theorem update_cur_desktop_eq (env : Replies) (st : State) :
    update_cur_desktop env st
      = { st with cur_desktop := env.current_desktop.getD st.cur_desktop } := by
  unfold update_cur_desktop
  cases env.current_desktop <;> rfl

/-- C6: on a property-change notification, with pairwise different atoms, `handle_event`
runs exactly the handlers of the routing table: desktop-names runs `update_desktop_name`
then `output_infos`; active-window, and a window-name atom from a window other than the
root, run `update_window_title` then `output_infos`; desktop-count only stores the new
`num_desktops`; current-desktop stores `cur_desktop`, then runs `update_desktop_name` on
that state, then `output_infos`; a window-name atom from the root window and every other
atom leave the state as it is.  Whenever it returns, it has written one line if the
notification is one the table re-renders on, and none otherwise. -/
theorem handle_event_routing (ewmh : Ewmh) (root BUFSIZ : Nat) (advance : List Nat → Int)
    (fuel : Nat) (env : Replies) (pne : Event) (st : State) (hdist : ewmh.distinct)
    (hpn : XCB_EVENT_RESPONSE_TYPE pne = XCB_PROPERTY_NOTIFY) :
    (pne.atom = ewmh._NET_DESKTOP_NAMES →
        handle_event ewmh root BUFSIZ advance fuel env pne st
          = (update_desktop_name BUFSIZ fuel env st >>= output_infos advance fuel))
      ∧ (pne.atom = ewmh._NET_ACTIVE_WINDOW →
        handle_event ewmh root BUFSIZ advance fuel env pne st
          = (update_window_title BUFSIZ env st >>= output_infos advance fuel))
      ∧ ((pne.atom = ewmh._NET_WM_NAME ∨ pne.atom = XCB_ATOM_WM_NAME) → pne.window ≠ root →
        handle_event ewmh root BUFSIZ advance fuel env pne st
          = (update_window_title BUFSIZ env st >>= output_infos advance fuel))
      ∧ (pne.atom = ewmh._NET_NUMBER_OF_DESKTOPS →
        handle_event ewmh root BUFSIZ advance fuel env pne st
          = .ok { st with num_desktops := env.number_of_desktops.getD st.num_desktops })
      ∧ (pne.atom = ewmh._NET_CURRENT_DESKTOP →
        handle_event ewmh root BUFSIZ advance fuel env pne st
          = (update_desktop_name BUFSIZ fuel env
              { st with cur_desktop := env.current_desktop.getD st.cur_desktop }
            >>= output_infos advance fuel))
      ∧ ((pne.atom = ewmh._NET_WM_NAME ∨ pne.atom = XCB_ATOM_WM_NAME) → pne.window = root →
        handle_event ewmh root BUFSIZ advance fuel env pne st = .ok st)
      ∧ (pne.atom ∉ [ewmh._NET_DESKTOP_NAMES, ewmh._NET_ACTIVE_WINDOW, ewmh._NET_WM_NAME,
            XCB_ATOM_WM_NAME, ewmh._NET_NUMBER_OF_DESKTOPS, ewmh._NET_CURRENT_DESKTOP] →
        handle_event ewmh root BUFSIZ advance fuel env pne st = .ok st)
      ∧ (∀ st2, handle_event ewmh root BUFSIZ advance fuel env pne st = .ok st2 →
        st2.stdout.length
          = st.stdout.length + (if rerender_spec ewmh root pne then 1 else 0)) := by
  simp only [Ewmh.distinct, List.nodup_cons, List.mem_cons, List.mem_singleton, not_or,
    List.not_mem_nil, not_false_eq_true, List.nodup_nil, and_true] at hdist
  obtain ⟨⟨h12, h13, h14, h15, h16⟩, ⟨h23, h24, h25, h26⟩, ⟨h34, h35, h36⟩, ⟨h45, h46⟩, h56⟩
    := hdist
  refine ⟨fun h => ?_, fun h => ?_, fun h hw => ?_, fun h => ?_, fun h => ?_, fun h hw => ?_,
    fun h => ?_, fun st2 h => ?_⟩
  · unfold handle_event
    rw [if_pos hpn, if_pos h]
  · unfold handle_event
    rw [if_pos hpn, if_neg (by rw [h]; exact Ne.symm h12), if_pos h]
  · unfold handle_event
    rw [if_pos hpn, if_neg (by rcases h with h | h <;> rw [h] <;> omega),
      if_neg (by rcases h with h | h <;> rw [h] <;> omega), if_pos ⟨hw, h⟩]
  · unfold handle_event
    rw [if_pos hpn, if_neg (by rw [h]; omega), if_neg (by rw [h]; omega),
      if_neg (by rw [h]; omega), if_pos h, update_num_desktops_eq]; rfl
  · unfold handle_event
    rw [if_pos hpn, if_neg (by rw [h]; omega), if_neg (by rw [h]; omega),
      if_neg (by rw [h]; omega), if_neg (by rw [h]; omega), if_pos h, update_cur_desktop_eq]
  · unfold handle_event
    rw [if_pos hpn, if_neg (by rcases h with h | h <;> rw [h] <;> omega),
      if_neg (by rcases h with h | h <;> rw [h] <;> omega), if_neg (by simp [hw]),
      if_neg (by rcases h with h | h <;> rw [h] <;> omega),
      if_neg (by rcases h with h | h <;> rw [h] <;> omega)]; rfl
  · simp only [List.mem_cons, List.mem_singleton, not_or, List.not_mem_nil,
      not_false_eq_true, and_true] at h
    unfold handle_event
    rw [if_pos hpn, if_neg h.1, if_neg h.2.1, if_neg (by tauto), if_neg h.2.2.2.2.1,
      if_neg h.2.2.2.2.2]; rfl
  · unfold handle_event at h
    rw [if_pos hpn] at h
    unfold rerender_spec
    split at h
    · rename_i ha
      obtain ⟨s1, h1, h2⟩ := bind_eq_ok _ _ _ h
      rw [output_infos_stdout _ _ _ _ h2, update_desktop_name_stdout _ _ _ _ _ h1]
      simp [ha]
    · split at h
      · rename_i ha
        obtain ⟨s1, h1, h2⟩ := bind_eq_ok _ _ _ h
        rw [output_infos_stdout _ _ _ _ h2, update_window_title_stdout _ _ _ _ h1]
        simp [ha]
      · split at h
        · rename_i ha
          obtain ⟨s1, h1, h2⟩ := bind_eq_ok _ _ _ h
          rw [output_infos_stdout _ _ _ _ h2, update_window_title_stdout _ _ _ _ h1]
          have : (pne.atom == ewmh._NET_WM_NAME || pne.atom == XCB_ATOM_WM_NAME) = true := by
            simpa using ha.2
          simp [this, ha.1]
        · rename_i hn1 hn2 hn3
          split at h
          · rename_i ha
            simp only [pure, Except.pure, Except.ok.injEq] at h
            rw [← h, update_num_desktops_eq]
            have e1 : ¬ ewmh._NET_NUMBER_OF_DESKTOPS = ewmh._NET_DESKTOP_NAMES := by omega
            have e2 : ¬ ewmh._NET_NUMBER_OF_DESKTOPS = ewmh._NET_ACTIVE_WINDOW := by omega
            have e3 : ¬ ewmh._NET_NUMBER_OF_DESKTOPS = ewmh._NET_CURRENT_DESKTOP := by omega
            have e4 : ¬ ewmh._NET_NUMBER_OF_DESKTOPS = ewmh._NET_WM_NAME := by omega
            have e5 : ¬ ewmh._NET_NUMBER_OF_DESKTOPS = XCB_ATOM_WM_NAME := by omega
            simp [ha, e1, e2, e3, e4, e5]
          · split at h
            · rename_i ha
              obtain ⟨s1, h1, h2⟩ := bind_eq_ok _ _ _ h
              rw [output_infos_stdout _ _ _ _ h2, update_desktop_name_stdout _ _ _ _ _ h1,
                update_cur_desktop_eq]
              simp [ha]
            · rename_i hn4 hn5
              simp only [pure, Except.pure, Except.ok.injEq] at h
              rw [← h]
              have : ¬ ((pne.atom = ewmh._NET_WM_NAME ∨ pne.atom = XCB_ATOM_WM_NAME)
                  ∧ pne.window ≠ root) := by tauto
              simp [hn1, hn2, hn5]
              intro ha
              by_contra hw
              exact this ⟨ha, hw⟩

theorem handle_event_routing_witness :
    handle_event sample_ewmh 1 8 sample_advance 8 sample_env ⟨28, 7, 300⟩ sample_state
      = (update_desktop_name 8 8 sample_env sample_state >>= output_infos sample_advance 8) :=
  (handle_event_routing sample_ewmh 1 8 sample_advance 8 sample_env ⟨28, 7, 300⟩ sample_state
    (by decide) (by decide)).1 rfl

/-! ## The feed pipe -/

theorem strip_spec_append_one (t : List Nat) (x : Nat) :
    strip_spec (t ++ [x]) = if isspace x then strip_spec t else t ++ [x] := by
  unfold strip_spec
  by_cases h : isspace x = true
  · simp [List.dropWhile_cons, h]
  · simp [List.dropWhile_cons, h]

theorem strip_spec_subset (t : List Nat) (x : Nat) (h : x ∈ strip_spec t) : x ∈ t := by
  unfold strip_spec at h
  rw [List.mem_reverse] at h
  exact List.mem_reverse.mp ((List.dropWhile_suffix _).subset h)

/-- Only the bytes after the first one decide what is stripped, unless all bytes are
whitespace. -/
theorem strip_spec_cons (c : Nat) (t : List Nat) (h : ∃ x ∈ c :: t, isspace x = false) :
    strip_spec (c :: t) = c :: strip_spec t := by
  induction t using List.reverseRecOn with
  | nil =>
    obtain ⟨x, hx, hsp⟩ := h
    simp only [List.mem_singleton] at hx
    subst hx
    simp [strip_spec, List.dropWhile_cons, hsp]
  | append_singleton t y ih =>
    rw [← List.cons_append, strip_spec_append_one, strip_spec_append_one]
    by_cases hy : isspace y = true
    · rw [if_pos hy, if_pos hy]
      apply ih
      obtain ⟨x, hx, hsp⟩ := h
      refine ⟨x, ?_, hsp⟩
      simp only [List.mem_cons, List.mem_append, List.mem_singleton, List.not_mem_nil,
        or_false] at hx ⊢
      rcases hx with hx | hx | hx
      · exact Or.inl hx
      · exact Or.inr hx
      · subst hx; rw [hy] at hsp; exact absurd hsp (by simp)
    · rw [if_neg hy, if_neg hy]; rfl

/-- The stripping loop, started at the last byte of `c :: t`, leaves `c` and `t` without its
trailing whitespace, followed by a NUL. -/
theorem strip_trailing_spec (c : Nat) (t : List Nat) : ∀ (rest : List Nat),
    ∃ rest2, strip_trailing t.length (c :: (t ++ 0 :: rest))
      = .ok (c :: (strip_spec t ++ 0 :: rest2)) := by
  induction t using List.reverseRecOn with
  | nil => intro rest; exact ⟨rest, rfl⟩
  | append_singleton t x ih =>
    intro rest
    have hload : load (c :: (t ++ [x] ++ 0 :: rest)) (t.length + 1) = .ok x := by
      have hget : (c :: (t ++ [x] ++ 0 :: rest))[t.length + 1]? = some x := by
        rw [List.getElem?_cons_succ, List.append_assoc,
          List.getElem?_append_right (le_refl _)]
        simp
      simp only [load, List.get?_eq_getElem?, hget]
    have hstore : store (c :: (t ++ [x] ++ 0 :: rest)) (t.length + 1) 0
        = .ok (c :: (t ++ 0 :: 0 :: rest)) := by
      rw [store_lt _ _ _ (by simp)]
      simp
    rw [List.length_append, List.length_singleton]
    unfold strip_trailing
    rw [hload, strip_spec_append_one]
    simp only [bind, Except.bind]
    by_cases hx : isspace x = true
    · rw [if_pos hx, if_pos hx, hstore]
      exact ih (0 :: rest)
    · rw [if_neg hx, if_neg hx]
      exact ⟨rest, rfl⟩

theorem output_infos_external_infos (advance : List Nat → Int) (fuel : Nat) (st st2 : State)
    (h : output_infos advance fuel st = .ok st2) : st2.external_infos = st.external_infos := by
  unfold output_infos at h
  obtain ⟨⟨t, l, r, c⟩, -, h2⟩ := bind_eq_ok _ _ _ h
  simp only [pure, Except.pure, Except.ok.injEq] at h2
  rw [← h2]

/-- C7 as stated fails: when the pipe delivers `" \n "` (only whitespace), the stored feed
text is `" "`, not the delivered bytes with all trailing whitespace removed (the empty
string): the loop stops at index 0. -/
theorem read_feed_stores_counterexample :
    feed_store (read_into sample_state.external_infos [32, 10, 32]) 3
        = .ok [32, 0, 0, 0, 0, 0, 0, 0]
      ∧ strip_spec [32, 10, 32] = []
      ∧ cstr [32, 0, 0, 0, 0, 0, 0, 0] ≠ strip_spec [32, 10, 32] := by
  refine ⟨rfl, by decide, by decide⟩

/-- C7 (amended): for a non-empty NUL-free byte sequence shorter than the buffer, the
pipe-read path stores the first delivered byte followed by the remaining bytes with their
trailing whitespace removed, then calls `output_infos`, which keeps that text; this is the
delivered bytes with all trailing whitespace removed whenever some delivered byte is not
whitespace. -/
theorem read_feed_stores (BUFSIZ : Nat) (advance : List Nat → Int) (fuel : Nat) (st : State)
    (data : List Nat) (hne : data ≠ []) (hB : st.external_infos.length = BUFSIZ)
    (hlen : data.length < BUFSIZ) (hnul : ∀ c ∈ data, c ≠ 0) :
    ∃ r, feed_store (read_into st.external_infos data) data.length = .ok r
      ∧ read_feed BUFSIZ advance fuel (some data) st
          = output_infos advance fuel { st with external_infos := r }
      ∧ (∀ st2, read_feed BUFSIZ advance fuel (some data) st = .ok st2 →
          st2.external_infos = r)
      ∧ cstr r = data.take 1 ++ strip_spec (data.drop 1)
      ∧ ((∃ c ∈ data, isspace c = false) → cstr r = strip_spec data) := by
  obtain ⟨c, t, rfl⟩ : ∃ c t, data = c :: t := by
    cases data with
    | nil => exact absurd rfl hne
    | cons c t => exact ⟨c, t, rfl⟩
  obtain ⟨y, rest, hdrop⟩ : ∃ y rest, st.external_infos.drop (c :: t).length = y :: rest := by
    cases h : st.external_infos.drop (c :: t).length with
    | nil =>
      have := congrArg List.length h
      simp only [List.length_drop, List.length_nil] at this
      omega
    | cons y rest => exact ⟨y, rest, rfl⟩
  obtain ⟨rest2, hstrip⟩ := strip_trailing_spec c t rest
  have hstore : feed_store (read_into st.external_infos (c :: t)) (c :: t).length
      = .ok (c :: (strip_spec t ++ 0 :: rest2)) := by
    unfold feed_store read_into
    rw [hdrop, store_lt _ _ _ (by simp)]
    simp only [bind, Except.bind, List.length_cons, Nat.add_sub_cancel]
    rw [← hstrip]
    congr 1
    simp
  have hc0 : c ≠ 0 := hnul c (List.mem_cons_self _ _)
  have hcs : cstr (c :: (strip_spec t ++ 0 :: rest2)) = c :: strip_spec t := by
    rw [cstr_cons_ne _ _ hc0, cstr_append_zero]
    intro x hx
    exact hnul x (List.mem_cons_of_mem _ (strip_spec_subset t x hx))
  have hread : read_feed BUFSIZ advance fuel (some (c :: t)) st
      = output_infos advance fuel
          { st with external_infos := c :: (strip_spec t ++ 0 :: rest2) } := by
    unfold read_feed
    simp only []
    rw [List.take_of_length_le (by omega), if_pos (by simp), hstore]
    rfl
  refine ⟨_, hstore, hread, fun st2 h2 => ?_, ?_, fun h => ?_⟩
  · rw [hread] at h2
    exact output_infos_external_infos _ _ _ _ h2
  · rw [hcs]; rfl
  · rw [hcs, strip_spec_cons c t h]

theorem read_feed_stores_witness :
    ∃ r, feed_store (read_into (List.replicate 32 0) (bytes "battery: 80%\n  ")) 15 = .ok r
      ∧ cstr r = bytes "battery: 80%" := by
  obtain ⟨r, h1, -, -, -, h2⟩ := read_feed_stores 32 sample_advance 8
    { sample_state with external_infos := List.replicate 32 0 } (bytes "battery: 80%\n  ")
    (by decide) (by decide) (by decide) (by decide)
  exact ⟨r, h1, by rw [h2 ⟨37, by decide, by decide⟩]; decide⟩

/-! ## The window title -/

/-- Copying `k` bytes none of which is NUL with `strncpy` copies them and adds no NUL. -/
theorem strncpy_from_copy (src : List Nat) : ∀ (k : Nat) (dest : List Nat) (i : Nat),
    (∀ j, j < k → ∃ c, src[i + j]? = some c ∧ c ≠ 0) → i + k ≤ dest.length →
    ∃ d, strncpy_from src dest i k = .ok d ∧ d.length = dest.length
      ∧ (∀ j, j < i → d[j]? = dest[j]?) ∧ (∀ j, j < k → d[i + j]? = src[i + j]?) := by
  intro k
  induction k with
  | zero =>
    intro dest i _ _
    exact ⟨dest, rfl, rfl, fun _ _ => rfl, fun j hj => absurd hj (Nat.not_lt_zero _)⟩
  | succ k ih =>
    intro dest i hsrc hlen
    obtain ⟨c, hc, hc0⟩ := hsrc 0 (Nat.succ_pos _)
    rw [Nat.add_zero] at hc
    unfold strncpy_from
    simp only [load, List.get?_eq_getElem?, hc, bind, Except.bind]
    rw [store_lt dest i c (by omega)]
    simp only [if_neg hc0]
    obtain ⟨d, hd, hl, hj, hjs⟩ := ih (dest.set i c) (i + 1)
      (fun j hjk => by
        have := hsrc (j + 1) (by omega)
        rwa [show i + (j + 1) = i + 1 + j by omega] at this)
      (by rw [List.length_set]; omega)
    refine ⟨d, hd, by simpa using hl, fun j hji => ?_, fun j hjk => ?_⟩
    · rw [hj j (by omega), List.getElem?_set_ne (by omega)]
    · cases j with
      | zero =>
        rw [Nat.add_zero, hj i (by omega), hc]
        simp [List.getElem?_set_self, show i < dest.length by omega]
      | succ j =>
        have := hjs j (by omega)
        rwa [show i + 1 + j = i + (j + 1) by omega] at this

theorem cstr_of_no_zero (v : List Nat) (h : ∀ c ∈ v, c ≠ 0) : cstr v = v := by
  unfold cstr
  rw [List.takeWhile_eq_self_iff]
  intro c hc
  simpa using h c hc

theorem cstr_split (v : List Nat) (h : ¬ ∀ c ∈ v, c ≠ 0) :
    ∃ rest, v = cstr v ++ 0 :: rest := by
  induction v with
  | nil => simp at h
  | cons a v ih =>
    by_cases ha : a = 0
    · subst ha; exact ⟨v, by simp [cstr]⟩
    · have hv : ¬ ∀ c ∈ v, c ≠ 0 := by
        intro hall
        apply h
        intro c hc
        rcases List.mem_cons.mp hc with rfl | hc
        · exact ha
        · exact hall c hc
      obtain ⟨rest, hr⟩ := ih hv
      refine ⟨rest, ?_⟩
      rw [cstr_cons_ne a v ha, List.cons_append, ← hr]

theorem cstr_no_zero (v : List Nat) : ∀ c ∈ cstr v, c ≠ 0 := by
  intro c hc
  have := List.mem_takeWhile_imp hc
  simpa using this

/-- The single-string branch of `copy_prop` on a value `v` shorter than `BUFSIZ`, with its
length as the stated length: `dest` receives `v` up to its first NUL (all of `v` when it
has none). -/
theorem copy_prop_single_value (BUFSIZ : Nat) (dest v : List Nat) (hv : v.length < BUFSIZ)
    (hB31 : BUFSIZ < 2 ^ 31) (hdest : dest.length = BUFSIZ) :
    ∃ d, copy_prop_single BUFSIZ dest v (int_of_uint v.length) = .ok d
      ∧ d.length = BUFSIZ ∧ cstr d = cstr v := by
  have hlen : int_of_uint v.length = (v.length : Int) := by
    unfold int_of_uint
    rw [if_pos (by omega)]; omega
  have hmin : MIN (v.length : Int) BUFSIZ = (v.length : Int) := by
    unfold MIN; rw [if_neg (by omega)]
  have hsz : size_t_of_int (v.length : Int) = v.length := by
    unfold size_t_of_int; omega
  unfold copy_prop_single
  rw [hlen, hmin, hsz]
  unfold strncpy store_at
  by_cases hz : ∀ c ∈ v, c ≠ 0
  · obtain ⟨d, hd, hl, -, hj⟩ := strncpy_from_copy v v.length dest 0
      (fun j hjl => ⟨v[j], by simp [List.getElem?_eq_getElem hjl],
        hz _ (List.getElem_mem _)⟩) (by omega)
    rw [hd]
    simp only [bind, Except.bind]
    rw [if_pos ⟨by omega, by omega⟩]
    refine ⟨_, rfl, by simp [hl, hdest], ?_⟩
    rw [cstr_of_no_zero v hz]
    refine cstr_of_getElem v _ hz (fun j hjl => ?_) ?_
    · rw [List.getElem?_set_ne (by omega)]
      simpa using hj j hjl
    · simp [List.getElem?_set_self, show v.length < d.length by omega]
  · obtain ⟨rest, hr⟩ := cstr_split v hz
    have hlt : (cstr v).length < v.length := by
      conv_rhs => rw [hr]
      simp
    obtain ⟨d, hd, hl, -, hj, hz0⟩ := strncpy_cstr dest v (cstr v) rest v.length
      (cstr_no_zero v) hr hlt (by omega)
    unfold strncpy at hd
    rw [hd]
    simp only [bind, Except.bind]
    rw [if_pos ⟨by omega, by omega⟩]
    refine ⟨_, rfl, by simp [hl, hdest], ?_⟩
    refine cstr_of_getElem (cstr v) _ (cstr_no_zero v) (fun j hjl => ?_) ?_
    · rw [List.getElem?_set_ne (by simp; omega)]
      exact hj j hjl
    · rw [List.getElem?_set_ne (by simp; omega)]
      exact hz0

theorem strcpy_missing (dest : List Nat) (h : 2 ≤ dest.length) :
    ∃ d, strcpy dest MISSING_VALUE = .ok d ∧ cstr d = MISSING_VALUE := by
  match dest, h with
  | a :: b :: rest, _ =>
    refine ⟨32 :: 0 :: rest, ?_, by simp [cstr, MISSING_VALUE]⟩
    simp [strcpy, store_all, store, MISSING_VALUE, bind, Except.bind]

theorem track_window_title (env : Replies) (win : Nat) (st : State) :
    (track_window env win st).window_title = st.window_title := by
  unfold track_window
  simp only []
  split <;> rfl

/-- C10 as stated fails: when `_NET_WM_NAME` of the active window is there but empty, the
`WM_NAME` query is never made and the title becomes the placeholder `" "`, although
`WM_NAME` would yield `"xterm"`. -/
theorem update_window_title_counterexample :
    update_window_title 8 sample_env_empty_name sample_state
        = .ok { sample_state with
            window_title := [32, 0, 99, 0, 0, 0, 0, 0], cur_win := 5, subscribed := [5] }
      ∧ cstr [32, 0, 99, 0, 0, 0, 0, 0] = MISSING_VALUE
      ∧ sample_env_empty_name.active_window = some 5
      ∧ sample_env_empty_name.ewmh_wm_name 5 = some []
      ∧ sample_env_empty_name.icccm_wm_name 5 = some [120, 116, 101, 114, 109] := by
  refine ⟨rfl, by decide, rfl, rfl, rfl⟩

/-- C10 (amended): when the active-window query succeeds and the title values are shorter
than `BUFSIZ`, `update_window_title` returns, and the stored title is the EWMH value when the
EWMH query yields a non-empty value; it is the ICCCM value when the EWMH query fails and the
ICCCM query yields a non-empty value; and it is the placeholder `" "` otherwise: when the
EWMH query yields an empty value (the ICCCM query is then not made), and when the EWMH query
fails and the ICCCM query fails or yields an empty value. -/
theorem update_window_title_source (BUFSIZ : Nat) (env : Replies) (st : State) (win : Nat)
    (hact : env.active_window = some win) (hB : 2 ≤ BUFSIZ) (hB31 : BUFSIZ < 2 ^ 31)
    (hdest : st.window_title.length = BUFSIZ)
    (hE : ∀ v, env.ewmh_wm_name win = some v → v.length < BUFSIZ)
    (hI : ∀ v, env.icccm_wm_name win = some v → v.length < BUFSIZ) :
    ∃ st2, update_window_title BUFSIZ env st = .ok st2
      ∧ (∀ v, env.ewmh_wm_name win = some v → v ≠ [] → cstr st2.window_title = cstr v)
      ∧ (∀ v, env.ewmh_wm_name win = none → env.icccm_wm_name win = some v → v ≠ [] →
          cstr st2.window_title = cstr v)
      ∧ (env.ewmh_wm_name win = some [] → cstr st2.window_title = MISSING_VALUE)
      ∧ (env.ewmh_wm_name win = none →
          env.icccm_wm_name win = none ∨ env.icccm_wm_name win = some [] →
          cstr st2.window_title = MISSING_VALUE) := by
  obtain ⟨dm, hdm, hcm⟩ := strcpy_missing st.window_title (by omega)
  unfold update_window_title
  rw [hact]
  simp only []
  cases he : env.ewmh_wm_name win with
  | some v =>
    simp only [title_queries, he, Option.isSome_some, Bool.true_or, if_true]
    by_cases hv : v = []
    · subst hv
      simp only [store_title, nonempty_value, List.length_nil, gt_iff_lt, lt_self_iff_false,
        if_false, hdm, bind, Except.bind, pure, Except.pure]
      refine ⟨_, rfl, ?_, ?_, ?_, ?_⟩
      · intro v2 h2 hne
        simp only [Option.some.injEq] at h2
        exact absurd h2.symm hne
      · intro v2 h2; simp at h2
      · intro _; rw [track_window_title]; exact hcm
      · intro h2; simp at h2
    · obtain ⟨d, hd, -, hc⟩ := copy_prop_single_value BUFSIZ st.window_title v (hE v he)
        hB31 hdest
      have hpos : v.length > 0 := List.length_pos.mpr hv
      simp only [store_title, nonempty_value, if_pos hpos, hd, bind, Except.bind, pure,
        Except.pure]
      refine ⟨_, rfl, ?_, ?_, ?_, ?_⟩
      · intro v2 h2 _
        simp only [Option.some.injEq] at h2
        subst h2
        rw [track_window_title]; exact hc
      · intro v2 h2; simp at h2
      · intro h2
        simp only [Option.some.injEq] at h2
        exact absurd h2 hv
      · intro h2; simp at h2
  | none =>
    cases hi : env.icccm_wm_name win with
    | none =>
      simp only [title_queries, he, hi, Option.isSome_none, Bool.or_self, Bool.false_eq_true,
        if_false, hdm, bind, Except.bind, pure, Except.pure]
      refine ⟨_, rfl, ?_, ?_, ?_, ?_⟩
      · intro v2 h2; simp at h2
      · intro v2 _ h2; simp at h2
      · intro h2; simp at h2
      · intro _ _; exact hcm
    | some v =>
      simp only [title_queries, he, hi, Option.isSome_some, Bool.or_true, if_true]
      by_cases hv : v = []
      · subst hv
        simp only [store_title, nonempty_value, List.length_nil, gt_iff_lt, lt_self_iff_false,
          if_false, hdm, bind, Except.bind, pure, Except.pure]
        refine ⟨_, rfl, ?_, ?_, ?_, ?_⟩
        · intro v2 h2; simp at h2
        · intro v2 _ h2 hne
          simp only [Option.some.injEq] at h2
          exact absurd h2.symm hne
        · intro h2; simp at h2
        · intro _ _; rw [track_window_title]; exact hcm
      · obtain ⟨d, hd, -, hc⟩ := copy_prop_single_value BUFSIZ st.window_title v (hI v hi)
          hB31 hdest
        have hpos : v.length > 0 := List.length_pos.mpr hv
        simp only [store_title, nonempty_value, if_pos hpos, hd, bind, Except.bind, pure,
          Except.pure]
        refine ⟨_, rfl, ?_, ?_, ?_, ?_⟩
        · intro v2 h2; simp at h2
        · intro v2 _ h2 _
          simp only [Option.some.injEq] at h2
          subst h2
          rw [track_window_title]; exact hc
        · intro h2; simp at h2
        · intro _ h2
          rcases h2 with h2 | h2
          · simp at h2
          · simp only [Option.some.injEq] at h2
            exact absurd h2 hv

theorem update_window_title_source_witness :
    ∃ st2, update_window_title 8 sample_env_empty_name sample_state = .ok st2
      ∧ cstr st2.window_title = MISSING_VALUE := by
  obtain ⟨st2, h, -, -, h3, -⟩ := update_window_title_source 8 sample_env_empty_name
    sample_state 5 rfl (by decide) (by decide) (by decide)
    (fun v hv => by
      have : v = [] := by
        simpa [sample_env_empty_name] using hv.symm
      subst this; decide)
    (fun v hv => by
      have : v = [120, 116, 101, 114, 109] := by
        simpa [sample_env_empty_name] using hv.symm
      subst this; decide)
  exact ⟨st2, h, h3 rfl⟩

/-! ## Failing queries and the subscription -/

/-- C11 as stated fails: when the current-desktop query and the desktop-count query fail,
`update_cur_desktop` and `update_num_desktops` leave the state as it is, so `cur_desktop`
stays 3 and `num_desktops` stays 4. -/
theorem update_failing_counterexample :
    sample_env_failing.current_desktop = none
      ∧ sample_env_failing.number_of_desktops = none
      ∧ (update_cur_desktop sample_env_failing sample_state_tracking).cur_desktop = 3
      ∧ (update_num_desktops sample_env_failing sample_state_tracking).num_desktops = 4 := by
  refine ⟨rfl, rfl, rfl, rfl⟩

/-- C11 (amended): for every prior state whose `desktop_name` and `window_title` buffers have
room for the placeholder, a failing desktop-names query makes `update_desktop_name` store the
placeholder `" "`, and a failing active-window query, or a successful one followed by two
failing title queries, makes `update_window_title` store the placeholder `" "`; a failing
current-desktop or desktop-count query leaves the state, and so `cur_desktop` or
`num_desktops`, as it was. -/
theorem update_failing (BUFSIZ fuel : Nat) (env : Replies) (st : State)
    (hd : 2 ≤ st.desktop_name.length) (ht : 2 ≤ st.window_title.length) :
    (env.desktop_names = none →
        ∃ st2, update_desktop_name BUFSIZ fuel env st = .ok st2
          ∧ cstr st2.desktop_name = MISSING_VALUE)
      ∧ (env.active_window = none
          ∨ (∃ win, env.active_window = some win ∧ env.ewmh_wm_name win = none
              ∧ env.icccm_wm_name win = none) →
        ∃ st2, update_window_title BUFSIZ env st = .ok st2
          ∧ cstr st2.window_title = MISSING_VALUE)
      ∧ (env.current_desktop = none → update_cur_desktop env st = st)
      ∧ (env.number_of_desktops = none → update_num_desktops env st = st) := by
  obtain ⟨dd, hdd, hcd⟩ := strcpy_missing st.desktop_name hd
  obtain ⟨dt, hdt, hct⟩ := strcpy_missing st.window_title ht
  refine ⟨fun h => ?_, fun h => ?_, fun h => ?_, fun h => ?_⟩
  · unfold update_desktop_name
    rw [h]
    simp only [hdd, bind, Except.bind, pure, Except.pure]
    exact ⟨_, rfl, hcd⟩
  · unfold update_window_title
    rcases h with h | ⟨win, h, he, hi⟩
    · rw [h]
      simp only [hdt, bind, Except.bind, pure, Except.pure]
      exact ⟨_, rfl, hct⟩
    · rw [h]
      simp only [title_queries, he, hi, Option.isSome_none, Bool.or_self, Bool.false_eq_true,
        if_false, hdt, bind, Except.bind, pure, Except.pure]
      exact ⟨_, rfl, hct⟩
  · unfold update_cur_desktop; rw [h]
  · unfold update_num_desktops; rw [h]

theorem update_failing_witness :
    (∃ st2, update_desktop_name 8 1 sample_env_failing sample_state_tracking = .ok st2
        ∧ cstr st2.desktop_name = MISSING_VALUE)
      ∧ (∃ st2, update_window_title 8 sample_env_failing sample_state_tracking = .ok st2
        ∧ cstr st2.window_title = MISSING_VALUE) :=
  ⟨(update_failing 8 1 sample_env_failing sample_state_tracking (by decide) (by decide)).1 rfl,
    (update_failing 8 1 sample_env_failing sample_state_tracking (by decide)
      (by decide)).2.1 (Or.inl rfl)⟩

theorem store_title_ok (BUFSIZ : Nat) (dest : List Nat) (e i : Option (List Nat))
    (hB : 2 ≤ BUFSIZ) (hB31 : BUFSIZ < 2 ^ 31) (hdest : dest.length = BUFSIZ)
    (he : ∀ v, e = some v → v.length < BUFSIZ) (hi : ∀ v, i = some v → v.length < BUFSIZ) :
    ∃ t, store_title BUFSIZ dest e i = .ok t := by
  obtain ⟨dm, hdm, -⟩ := strcpy_missing dest (by omega)
  have key : ∀ o : Option (List Nat), (∀ v, o = some v → v.length < BUFSIZ) →
      ∀ v, nonempty_value o = some v → v.length < BUFSIZ := by
    intro o ho v hv
    cases o with
    | none => simp [nonempty_value] at hv
    | some w =>
      simp only [nonempty_value] at hv
      split at hv
      · simp only [Option.some.injEq] at hv
        subst hv; exact ho _ rfl
      · simp at hv
  unfold store_title
  cases h1 : nonempty_value e with
  | some v =>
    obtain ⟨d, hd, -⟩ := copy_prop_single_value BUFSIZ dest v (key e he v h1) hB31 hdest
    exact ⟨d, hd⟩
  | none =>
    cases h2 : nonempty_value i with
    | some v =>
      obtain ⟨d, hd, -⟩ := copy_prop_single_value BUFSIZ dest v (key i hi v h2) hB31 hdest
      exact ⟨d, hd⟩
    | none => exact ⟨dm, hdm⟩

/-- C12 as stated fails: when window 7 becomes active but has neither title property, both
title queries fail and `update_window_title` takes its `else` branch: `cur_win` stays 5 and
window 5 stays subscribed, window 7 is not subscribed. -/
theorem update_window_title_subscription_counterexample :
    sample_env_unnamed.active_window = some 7
      ∧ sample_state_tracking.cur_win = 5
      ∧ update_window_title 8 sample_env_unnamed sample_state_tracking
        = .ok { sample_state_tracking with window_title := [32, 0, 99, 0, 0, 0, 0, 0] }
      ∧ ({ sample_state_tracking with window_title := [32, 0, 99, 0, 0, 0, 0, 0] } : State).cur_win
          = 5
      ∧ ({ sample_state_tracking with
            window_title := [32, 0, 99, 0, 0, 0, 0, 0] } : State).subscribed = [1, 5] := by
  refine ⟨rfl, rfl, rfl, rfl, rfl⟩

/-- C12 (amended): after every `update_window_title` call whose active-window query succeeds
with a handle different from the tracked `cur_win` and for which at least one title query
succeeds (with title values shorter than `BUFSIZ`), `cur_win` equals the new handle, the old
handle is not subscribed any more, the new handle is subscribed when the subscription request
succeeds and is logged when it fails, and every subscribed window is the new handle or was
subscribed before; so if before the call only the root and `cur_win` were subscribed, after
it only the root and the new handle are.  When both title queries fail, neither `cur_win` nor
the subscriptions change. -/
theorem update_window_title_subscription (BUFSIZ : Nat) (env : Replies) (st : State)
    (win root : Nat) (hact : env.active_window = some win) (hne : win ≠ st.cur_win)
    (hB : 2 ≤ BUFSIZ) (hB31 : BUFSIZ < 2 ^ 31) (hdest : st.window_title.length = BUFSIZ)
    (hE : ∀ v, env.ewmh_wm_name win = some v → v.length < BUFSIZ)
    (hI : ∀ v, env.icccm_wm_name win = some v → v.length < BUFSIZ) :
    ∃ st2, update_window_title BUFSIZ env st = .ok st2
      ∧ ((env.ewmh_wm_name win).isSome ∨ (env.icccm_wm_name win).isSome →
          st2.cur_win = win
          ∧ st.cur_win ∉ st2.subscribed
          ∧ (env.subscribe_ok win = true → win ∈ st2.subscribed ∧ st2.stderr = st.stderr)
          ∧ (env.subscribe_ok win = false → st2.stderr = st.stderr ++ [win])
          ∧ (∀ w ∈ st2.subscribed, w = win ∨ (w ∈ st.subscribed ∧ w ≠ st.cur_win))
          ∧ ((∀ w ∈ st.subscribed, w = root ∨ w = st.cur_win) →
              ∀ w ∈ st2.subscribed, w = root ∨ w = win))
      ∧ (env.ewmh_wm_name win = none → env.icccm_wm_name win = none →
          st2.cur_win = st.cur_win ∧ st2.subscribed = st.subscribed) := by
  have hq1 : ∀ v, (title_queries env win).1 = some v → v.length < BUFSIZ := by
    intro v hv
    unfold title_queries at hv
    cases he : env.ewmh_wm_name win with
    | some w => rw [he] at hv; simp only [Option.some.injEq] at hv; subst hv; exact hE _ he
    | none => rw [he] at hv; simp at hv
  have hq2 : ∀ v, (title_queries env win).2 = some v → v.length < BUFSIZ := by
    intro v hv
    unfold title_queries at hv
    cases he : env.ewmh_wm_name win with
    | some w => rw [he] at hv; simp at hv
    | none => rw [he] at hv; exact hI _ hv
  obtain ⟨t, ht⟩ := store_title_ok BUFSIZ st.window_title _ _ hB hB31 hdest hq1 hq2
  obtain ⟨dm, hdm, -⟩ := strcpy_missing st.window_title (by omega)
  have hsome : ((title_queries env win).1.isSome || (title_queries env win).2.isSome)
      = ((env.ewmh_wm_name win).isSome || (env.icccm_wm_name win).isSome) := by
    unfold title_queries
    cases env.ewmh_wm_name win <;> simp
  unfold update_window_title
  rw [hact]
  simp only [hsome]
  by_cases hs : ((env.ewmh_wm_name win).isSome || (env.icccm_wm_name win).isSome) = true
  · rw [if_pos hs]
    simp only [ht, bind, Except.bind, pure, Except.pure]
    refine ⟨_, rfl, fun _ => ?_, fun h1 h2 => ?_⟩
    · unfold track_window
      simp only [if_pos hne]
      by_cases hok : env.subscribe_ok win = true
      · simp only [if_pos hok]
        refine ⟨trivial, ?_, fun _ => ⟨?_, trivial⟩, fun h => ?_, ?_, ?_⟩
        · split
          · simp
          · simp [Ne.symm hne]
        · split
          · assumption
          · simp
        · rw [hok] at h; exact absurd h (by simp)
        · intro w hw
          split at hw
          · right; simpa using hw
          · rcases List.mem_cons.mp hw with h | h
            · exact Or.inl h
            · right; simpa using h
        · intro hinv w hw
          split at hw
          · have := List.mem_filter.mp hw
            rcases hinv w this.1 with h | h
            · exact Or.inl h
            · simp [h] at this
          · rcases List.mem_cons.mp hw with h | h
            · exact Or.inr h
            · have := List.mem_filter.mp h
              rcases hinv w this.1 with h | h
              · exact Or.inl h
              · simp [h] at this
      · simp only [if_neg hok]
        refine ⟨trivial, by simp, fun h => absurd h hok, fun _ => trivial, ?_, ?_⟩
        · intro w hw
          right; simpa using hw
        · intro hinv w hw
          have := List.mem_filter.mp hw
          rcases hinv w this.1 with h | h
          · exact Or.inl h
          · simp [h] at this
    · rw [h1, h2] at hs; simp at hs
  · rw [if_neg hs]
    simp only [hdm, bind, Except.bind, pure, Except.pure]
    refine ⟨_, rfl, fun h => ?_, fun _ _ => ⟨rfl, rfl⟩⟩
    exfalso; apply hs
    rcases h with h | h <;> simp [h]

theorem update_window_title_subscription_witness :
    ∃ st2, update_window_title 8 sample_env_named sample_state_tracking = .ok st2
      ∧ st2.cur_win = 7 ∧ 5 ∉ st2.subscribed ∧ 7 ∈ st2.subscribed
      ∧ ∀ w ∈ st2.subscribed, w = 1 ∨ w = 7 := by
  obtain ⟨st2, h, h1, -⟩ := update_window_title_subscription 8 sample_env_named
    sample_state_tracking 7 1 rfl (by decide) (by decide) (by decide) (by decide)
    (fun v hv => by
      have : v = [118, 105] := by simpa [sample_env_named] using hv.symm
      subst this; decide)
    (fun v hv => by simp [sample_env_named] at hv)
  obtain ⟨a, b, c, -, -, e⟩ := h1 (Or.inl rfl)
  exact ⟨st2, h, a, b, (c rfl).1, e (by decide)⟩

/-! ## Rendering -/

theorem available_center_eq (screen_width horiz_padding : Nat) (l r : Int)
    (h : 4 * horiz_padding < 2 ^ 32) :
    available_center screen_width horiz_padding l r
      = (screen_width : Int) - (l + r + 4 * (horiz_padding : Int)) := by
  unfold available_center
  rw [show (4 * horiz_padding % 2 ^ 32 : Nat) = 4 * horiz_padding by omega]
  push_cast; ring

/-- The computation of `layout` once the three buffers are NUL-terminated and the outcome of
the truncation step is known, when no conversion leaves the range of `int` and
`horiz_padding` is at most `screen_width`. -/
theorem layout_of_step (advance : List Nat → Int) (fuel : Nat) (st : State) (t : List Nat)
    (cw : Int)
    (hd : (cstr st.desktop_name).length < st.desktop_name.length)
    (he : (cstr st.external_infos).length < st.external_infos.length)
    (ht : (cstr st.window_title).length < st.window_title.length)
    (hstep : truncate_step advance fuel st.window_title (advance (cstr st.window_title))
      (available_center st.screen_width st.horiz_padding (advance (cstr st.desktop_name))
        (advance (cstr st.external_infos))) = .ok (t, cw))
    (hsw : st.screen_width < 2 ^ 16) (hpad : st.horiz_padding ≤ st.screen_width)
    (hr : -(2 ^ 30) ≤ advance (cstr st.external_infos)
      ∧ advance (cstr st.external_infos) ≤ 2 ^ 30)
    (hc : -(2 ^ 31) ≤ Int.tdiv (2 * (advance (cstr st.desktop_name)
          + 2 * (st.horiz_padding : Int))
        + ((st.screen_width : Int) - (advance (cstr st.desktop_name)
          + advance (cstr st.external_infos) + 4 * (st.horiz_padding : Int)) - cw)) 2
      ∧ Int.tdiv (2 * (advance (cstr st.desktop_name) + 2 * (st.horiz_padding : Int))
        + ((st.screen_width : Int) - (advance (cstr st.desktop_name)
          + advance (cstr st.external_infos) + 4 * (st.horiz_padding : Int)) - cw)) 2
        < 2 ^ 31) :
    layout advance fuel st = .ok (t, (st.horiz_padding : Int),
      (st.screen_width : Int) - st.horiz_padding - advance (cstr st.external_infos),
      Int.tdiv (2 * (advance (cstr st.desktop_name) + 2 * (st.horiz_padding : Int))
        + ((st.screen_width : Int) - (advance (cstr st.desktop_name)
          + advance (cstr st.external_infos) + 4 * (st.horiz_padding : Int)) - cw)) 2) := by
  have hright : (((st.screen_width + 2 ^ 32 - st.horiz_padding % 2 ^ 32) % 2 ^ 32 : Nat) : Int)
      = (st.screen_width : Int) - st.horiz_padding := by omega
  have h2 : ((2 * st.horiz_padding % 2 ^ 32 : Nat) : Int) = 2 * (st.horiz_padding : Int) := by
    omega
  have hav := available_center_eq st.screen_width st.horiz_padding
    (advance (cstr st.desktop_name)) (advance (cstr st.external_infos)) (by omega)
  have hl : int_of_uint st.horiz_padding = (st.horiz_padding : Int) := by
    unfold int_of_uint
    rw [if_pos (by omega)]; omega
  unfold layout
  rw [text_width_ok advance _ hd, text_width_ok advance _ he, text_width_ok advance _ ht]
  simp only [bind, Except.bind]
  rw [hstep]
  simp only [positions, int_of_half, int_of_double, hright, h2, hav, hl, bind, Except.bind]
  rw [if_pos (by omega)]
  simp only []
  rw [if_pos hc]
  rfl

theorem truncate_step_skip (advance : List Nat → Int) (fuel : Nat) (s : List Nat) (cw w : Int)
    (h : cw ≤ w) : truncate_step advance fuel s cw w = .ok (s, cw) := by
  unfold truncate_step
  rw [if_neg (by omega)]; rfl

/-- C13 as stated fails outside of non-negative, non-wrapping values.  With widths of -10
pixels per character (a negative font size), a screen of 11 pixels, padding 9, the desktop
name `"0123456789"` and `" "` as title and feed text, `available_center` is 85 and the title
(-10) fits, but the code converts `-100 + 18 + 95 / 2 = -34.5` to -34 (toward zero) while the
claimed `left_width + 2 * padding + floor(95 / 2)` is -35.  With `padding = 2^30` on the
sample state, `4 * padding` wraps to 0, `available_center` is 950 and the title fits, but the
conversion of `right_pos` to `int` is out of range. -/
theorem layout_no_truncation_counterexample :
    negative_advance (cstr sample_state_negative.window_title)
        ≤ available_center 11 9 (-100) (-10)
      ∧ available_center 11 9 (-100) (-10) = 85
      ∧ layout negative_advance 0 sample_state_negative = .ok ([32, 0, 0, 0], 9, 12, -34)
      ∧ (-100 : Int) + 2 * 9 + (85 - (-10)) / 2 = -35
      ∧ sample_advance (cstr sample_state_padding.window_title)
        ≤ available_center 1000 1073741824 30 20
      ∧ layout sample_advance 0 sample_state_padding = .error (.intRange 3221226452) := by
  refine ⟨by decide, by decide, rfl, by decide, by decide, rfl⟩

/-- C13 (amended): for a state whose three buffers hold NUL-terminated strings, with no
machine overflow (`screen_width` is a `uint16_t`, `horiz_padding <= screen_width`, the three
measured widths within `2^29`), when `center_width <= available_center`
`= screen_width - (left_width + right_width + 4 * padding)`, `output_infos` leaves the title
buffer as it is and computes `center_pos` as
`left_width + 2 * padding + (available_center - center_width) / 2` rounded toward zero (with
`left_pos = padding` and `right_pos = screen_width - padding - right_width`), and emits the
line with these positions; `center_pos` is
`left_width + 2 * padding + floor((available_center - center_width) / 2)` whenever that sum
is not negative, in particular whenever `left_width >= 0`. -/
theorem layout_no_truncation (advance : List Nat → Int) (fuel : Nat) (st : State)
    (hd : (cstr st.desktop_name).length < st.desktop_name.length)
    (he : (cstr st.external_infos).length < st.external_infos.length)
    (ht : (cstr st.window_title).length < st.window_title.length)
    (hsw : st.screen_width < 2 ^ 16) (hpad : st.horiz_padding ≤ st.screen_width)
    (hL : -(2 ^ 29) ≤ advance (cstr st.desktop_name)
      ∧ advance (cstr st.desktop_name) ≤ 2 ^ 29)
    (hR : -(2 ^ 29) ≤ advance (cstr st.external_infos)
      ∧ advance (cstr st.external_infos) ≤ 2 ^ 29)
    (hC : -(2 ^ 29) ≤ advance (cstr st.window_title))
    (hfit : advance (cstr st.window_title) ≤ available_center st.screen_width st.horiz_padding
      (advance (cstr st.desktop_name)) (advance (cstr st.external_infos))) :
    available_center st.screen_width st.horiz_padding
        (advance (cstr st.desktop_name)) (advance (cstr st.external_infos))
        = (st.screen_width : Int) - (advance (cstr st.desktop_name)
            + advance (cstr st.external_infos) + 4 * (st.horiz_padding : Int))
      ∧ layout advance fuel st = .ok (st.window_title, (st.horiz_padding : Int),
        (st.screen_width : Int) - st.horiz_padding - advance (cstr st.external_infos),
        Int.tdiv (2 * (advance (cstr st.desktop_name) + 2 * (st.horiz_padding : Int))
          + ((st.screen_width : Int) - (advance (cstr st.desktop_name)
              + advance (cstr st.external_infos) + 4 * (st.horiz_padding : Int))
            - advance (cstr st.window_title))) 2)
      ∧ output_infos advance fuel st = .ok { st with
          stdout := st.stdout ++ [format_line
            (Int.tdiv (2 * (advance (cstr st.desktop_name) + 2 * (st.horiz_padding : Int))
              + ((st.screen_width : Int) - (advance (cstr st.desktop_name)
                  + advance (cstr st.external_infos) + 4 * (st.horiz_padding : Int))
                - advance (cstr st.window_title))) 2)
            st.window_title
            ((st.screen_width : Int) - st.horiz_padding - advance (cstr st.external_infos))
            st.external_infos (st.horiz_padding : Int) st.desktop_name] }
      ∧ (0 ≤ advance (cstr st.desktop_name)
          ∨ 0 ≤ 2 * (advance (cstr st.desktop_name) + 2 * (st.horiz_padding : Int))
            + ((st.screen_width : Int) - (advance (cstr st.desktop_name)
                + advance (cstr st.external_infos) + 4 * (st.horiz_padding : Int))
              - advance (cstr st.window_title)) →
          Int.tdiv (2 * (advance (cstr st.desktop_name) + 2 * (st.horiz_padding : Int))
            + ((st.screen_width : Int) - (advance (cstr st.desktop_name)
                + advance (cstr st.external_infos) + 4 * (st.horiz_padding : Int))
              - advance (cstr st.window_title))) 2
          = advance (cstr st.desktop_name) + 2 * (st.horiz_padding : Int)
            + ((st.screen_width : Int) - (advance (cstr st.desktop_name)
                + advance (cstr st.external_infos) + 4 * (st.horiz_padding : Int))
              - advance (cstr st.window_title)) / 2) := by
  have hav := available_center_eq st.screen_width st.horiz_padding
    (advance (cstr st.desktop_name)) (advance (cstr st.external_infos)) (by omega)
  have hstep := truncate_step_skip advance fuel st.window_title
    (advance (cstr st.window_title)) (available_center st.screen_width st.horiz_padding
      (advance (cstr st.desktop_name)) (advance (cstr st.external_infos))) hfit
  rw [hav] at hfit
  have hlay := layout_of_step advance fuel st _ _ hd he ht hstep hsw hpad
    ⟨by omega, by omega⟩ (by rw [tdiv_two]; split <;> constructor <;> omega)
  refine ⟨hav, hlay, ?_, fun h => ?_⟩
  · unfold output_infos
    rw [hlay]; rfl
  · rw [tdiv_two, if_pos (by omega)]; omega

theorem layout_no_truncation_witness :
    layout scenario_advance 0 scenario_state
        = .ok (scenario_state.window_title, 9, 951, 250)
      ∧ available_center 1000 9 40 40 = 884 := by
  have h := (layout_no_truncation scenario_advance 0 scenario_state (by decide) (by decide)
    (by decide) (by decide) (by decide) (by decide) (by decide) (by decide) (by decide)).2.1
  exact ⟨h, by decide⟩

/-- C19 as stated fails when the arithmetic overflows: on the sample state with
`padding = 2^30`, a measurer with non-negative integer widths and `advance "" = 0`,
`4 * padding` wraps to 0, so `available_center` is `950 >= 0`, but
`screen_width - padding` wraps to `3221226472` and the conversion of `right_pos` to `int` is
out of range: `output_infos` computes no positions. -/
theorem layout_center_before_right_counterexample :
    sample_advance [] = 0
      ∧ available_center sample_state_padding.screen_width sample_state_padding.horiz_padding
          (sample_advance (cstr sample_state_padding.desktop_name))
          (sample_advance (cstr sample_state_padding.external_infos)) = 950
      ∧ (∀ fuel, layout sample_advance fuel sample_state_padding
          = .error (.intRange 3221226452))
      ∧ (∀ fuel, output_infos sample_advance fuel sample_state_padding
          = .error (.intRange 3221226452)) := by
  refine ⟨by decide, by decide, fun _ => rfl, fun _ => rfl⟩

/-- C19 (amended): for a state whose three buffers hold NUL-terminated strings, a measurer
with integer widths and `advance "" = 0`, and no machine overflow (`screen_width` is a
`uint16_t`, `horiz_padding <= screen_width`, measured widths within `2^29`), when
`available_center >= 0` the positions computed by `output_infos` keep the center segment
clear of the right segment: `center_pos + center_width + padding <= right_pos`, where
`center_width` is the width of the title after the truncation step. -/
theorem layout_center_before_right (advance : List Nat → Int) (fuel : Nat) (st : State)
    (hd : (cstr st.desktop_name).length < st.desktop_name.length)
    (he : (cstr st.external_infos).length < st.external_infos.length)
    (ht : (cstr st.window_title).length < st.window_title.length)
    (hsize : st.window_title.length ≤ 2 ^ 31) (hfuel : st.window_title.length ≤ fuel)
    (h0 : advance [] = 0)
    (hsw : st.screen_width < 2 ^ 16) (hpad : st.horiz_padding ≤ st.screen_width)
    (hrange : ∀ t, -(2 ^ 29) ≤ advance t ∧ advance t ≤ 2 ^ 29)
    (havail : 0 ≤ available_center st.screen_width st.horiz_padding
      (advance (cstr st.desktop_name)) (advance (cstr st.external_infos))) :
    ∃ title left_pos right_pos center_pos,
      layout advance fuel st = .ok (title, left_pos, right_pos, center_pos)
      ∧ output_infos advance fuel st = .ok { st with
          window_title := title
          stdout := st.stdout ++ [format_line center_pos title right_pos st.external_infos
            left_pos st.desktop_name] }
      ∧ center_pos + advance (cstr title) + st.horiz_padding ≤ right_pos := by
  have hL := hrange (cstr st.desktop_name)
  have hR := hrange (cstr st.external_infos)
  have hav := available_center_eq st.screen_width st.horiz_padding
    (advance (cstr st.desktop_name)) (advance (cstr st.external_infos)) (by omega)
  obtain ⟨t, hstep, hfit⟩ := truncate_step_fits advance fuel st.window_title
    (available_center st.screen_width st.horiz_padding
      (advance (cstr st.desktop_name)) (advance (cstr st.external_infos)))
    ht hsize hfuel h0 havail
  rw [hav] at hfit havail
  have hC := hrange (cstr t)
  have hlay := layout_of_step advance fuel st _ _ hd he ht hstep hsw hpad
    ⟨by omega, by omega⟩ (by rw [tdiv_two]; split <;> constructor <;> omega)
  refine ⟨_, _, _, _, hlay, ?_, ?_⟩
  · unfold output_infos
    rw [hlay]; rfl
  · rw [tdiv_two]; split <;> omega

theorem layout_center_before_right_witness :
    ∃ title left_pos right_pos center_pos,
      layout sample_advance 8 sample_state = .ok (title, left_pos, right_pos, center_pos)
      ∧ center_pos + sample_advance (cstr title) + sample_state.horiz_padding ≤ right_pos := by
  obtain ⟨title, l, r, c, h, -, hle⟩ := layout_center_before_right sample_advance 8
    sample_state (by decide) (by decide) (by decide) (by decide) (by decide) (by decide)
    (by decide) (by decide) (fun t => by unfold sample_advance; omega) (by decide)
  exact ⟨title, l, r, c, h, hle⟩

/-- C14 (the code at the failing input): when the title is empty and its width exceeds
`available_center` (in particular when the empty string measures 0 and `available_center` is
negative), the truncation step calls `truncate_text` with
`upper = strlen(window_title) - 1 = 2^32 - 1`; this is not below 2, so `middle = 2^31 - 1` is
computed and `s[2^31 - 1]` is read, outside of the title buffer: `output_infos` does not
stop at index 0. -/
theorem output_infos_empty_title_fault (advance : List Nat → Int) (fuel : Nat) (st : State)
    (rest : List Nat)
    (hd : (cstr st.desktop_name).length < st.desktop_name.length)
    (he : (cstr st.external_infos).length < st.external_infos.length)
    (htitle : st.window_title = 0 :: rest) (hlen : st.window_title.length ≤ 2147483647)
    (hneg : advance [] > available_center st.screen_width st.horiz_padding
      (advance (cstr st.desktop_name)) (advance (cstr st.external_infos))) :
    truncate_text advance (fuel + 1) st.window_title
        (available_center st.screen_width st.horiz_padding
          (advance (cstr st.desktop_name)) (advance (cstr st.external_infos)))
        0 4294967295 = .error (.outOfBounds 2147483647)
      ∧ output_infos advance (fuel + 1) st = .error (.outOfBounds 2147483647) := by
  have hc : cstr st.window_title = [] := by rw [htitle]; simp [cstr]
  have ht : (cstr st.window_title).length < st.window_title.length := by
    rw [hc, htitle]; simp
  have hload : load st.window_title 2147483647 = .error (.outOfBounds 2147483647) := by
    unfold load
    rw [List.get?_eq_none.mpr (by omega)]
    rfl
  have htt : ∀ w, truncate_text advance (fuel + 1) st.window_title w 0 4294967295
      = .error (.outOfBounds 2147483647) := by
    intro w
    unfold truncate_text
    rw [if_neg (by decide)]
    simp only [show (0 + 4294967295) % 2 ^ 32 / 2 = 2147483647 by decide, hload, bind,
      Except.bind]
  refine ⟨htt _, ?_⟩
  unfold output_infos layout
  rw [text_width_ok advance _ hd, text_width_ok advance _ he, text_width_ok advance _ ht]
  simp only [bind, Except.bind]
  unfold truncate_step
  rw [hc, if_pos hneg]
  simp only [strlen, hc, List.length_nil, if_pos (show 0 < st.window_title.length by omega),
    bind, Except.bind,
    show (0 + 2 ^ 64 - 1) % 2 ^ 64 % 2 ^ 32 = 4294967295 by decide, htt]

theorem output_infos_empty_title_fault_witness :
    output_infos sample_advance 1 sample_state_narrow = .error (.outOfBounds 2147483647) :=
  (output_infos_empty_title_fault sample_advance 0 sample_state_narrow [98, 99, 0, 0, 0, 0, 0]
    (by decide) (by decide) rfl (by decide) (by decide)).2

/-- C15: for every state, `output_infos` returns exactly when the positions are computed,
and the line it then appends to standard output is `"^pa("`, the decimal `center_pos`, `")"`,
the title after the truncation step, `"^pa("`, the decimal `right_pos`, `")"`, the feed text,
`"^pa("`, the decimal `left_pos`, `")"`, the desktop name and a newline; for the sample state
this is `"^pa(490)abc^pa(971)12^pa(9)1:w"` and a newline. -/
theorem output_infos_line (advance : List Nat → Int) (fuel : Nat) (st : State) :
    output_infos advance fuel st
        = (layout advance fuel st >>= fun p => Except.ok { st with
            window_title := p.1
            stdout := st.stdout ++
              [[94, 112, 97, 40] ++ bytes (toString p.2.2.2) ++ [41] ++ cstr p.1
                ++ [94, 112, 97, 40] ++ bytes (toString p.2.2.1) ++ [41]
                ++ cstr st.external_infos
                ++ [94, 112, 97, 40] ++ bytes (toString p.2.1) ++ [41] ++ cstr st.desktop_name
                ++ [10]] })
      ∧ bytes "^pa(" = [94, 112, 97, 40] ∧ bytes ")" = [41] ∧ bytes "\n" = [10]
      ∧ bytes (toString (-12 : Int)) = bytes "-12"
      ∧ output_infos sample_advance 8 sample_state
        = .ok { sample_state with stdout := [bytes "^pa(490)abc^pa(971)12^pa(9)1:w\n"] } := by
  refine ⟨?_, by decide, by decide, by decide, by decide, by rfl⟩
  unfold output_infos
  cases layout advance fuel st with
  | error e => rfl
  | ok p =>
    obtain ⟨t, l, r, c⟩ := p
    rfl

/-! ## Termination of `truncate_text` and the bounds of the feed and property reads -/

theorem cstr_length_le_of_zero (s : List Nat) (i : Nat) (h : s[i]? = some 0) :
    (cstr s).length ≤ i := by
  induction s generalizing i with
  | nil => simp at h
  | cons a t ih =>
    by_cases ha : a = 0
    · subst ha; simp [cstr]
    · cases i with
      | zero => simp at h; exact absurd h ha
      | succ i =>
        rw [cstr_cons_ne a t ha]
        simp only [List.length_cons, Nat.add_le_add_iff_right]
        exact ih i (by simpa using h)

/-- On bounds inside the buffer, whatever the buffer holds: `truncate_text` returns with
enough fuel, and what it returns is the buffer cut at an index between the bounds. -/
theorem truncate_text_cut (advance : List Nat → Int) (s : List Nat) (width : Int) :
    ∀ (fuel lower upper : Nat), lower ≤ upper → upper < 2 ^ 31 → upper - lower < fuel →
      upper < s.length →
      ∃ k, lower ≤ k ∧ k ≤ upper
        ∧ truncate_text advance fuel s width lower upper = .ok (s.set k 0) := by
  intro fuel
  induction fuel with
  | zero => intro lower upper _ _ h; omega
  | succ fuel ih =>
    intro lower upper hlu hsum hfuel hup
    unfold truncate_text
    have habs : ABS lower upper = upper - lower := by
      unfold ABS; rw [if_neg (by omega)]
    rw [habs]
    by_cases hd : upper - lower < 2
    · rw [if_pos hd]
      exact ⟨lower, le_refl _, hlu, store_lt s lower 0 (by omega)⟩
    · rw [if_neg hd]
      have hmod : (lower + upper) % 2 ^ 32 / 2 = (lower + upper) / 2 := by
        rw [Nat.mod_eq_of_lt (by omega)]
      have hmlen : (lower + upper) / 2 < s.length := by omega
      have hnul : (cstr (s.set ((lower + upper) / 2) 0)).length
          < (s.set ((lower + upper) / 2) 0).length := by
        have := cstr_length_le_of_zero (s.set ((lower + upper) / 2) 0) ((lower + upper) / 2)
          (by simp [List.getElem?_set_self, hmlen])
        rw [List.length_set]; omega
      simp only [hmod]
      rw [load_lt s _ hmlen]
      simp only [bind, Except.bind]
      rw [store_lt s _ 0 hmlen]
      simp only []
      rw [text_width_ok advance _ hnul]
      simp only []
      rw [store_lt _ _ _ (by simpa using hmlen), set_restore s _ 0 hmlen]
      simp only []
      split
      · obtain ⟨k, h1, h2, h3⟩ := ih ((lower + upper) / 2) upper (by omega) (by omega)
          (by omega) hup
        exact ⟨k, by omega, h2, h3⟩
      · obtain ⟨k, h1, h2, h3⟩ := ih lower ((lower + upper) / 2) (by omega) (by omega)
          (by omega) (by omega)
        exact ⟨k, h1, by omega, h3⟩

theorem bind_eq_error {α β : Type} (x : Except Fault α) (f : α → Except Fault β) (e : Fault)
    (h : (x >>= f) = .error e) : x = .error e ∨ ∃ a, x = .ok a ∧ f a = .error e := by
  cases x with
  | error e2 =>
    left
    simp only [bind, Except.bind, Except.error.injEq] at h
    rw [h]
  | ok a => exact Or.inr ⟨a, rfl, h⟩

theorem load_ne_fuel (s : List Nat) (i : Nat) : load s i ≠ .error .fuel := by
  unfold load
  cases s.get? i <;> simp

theorem store_ne_fuel (s : List Nat) (i c : Nat) : store s i c ≠ .error .fuel := by
  unfold store
  split <;> simp

theorem text_width_ne_fuel (advance : List Nat → Int) (s : List Nat) :
    text_width advance s ≠ .error .fuel := by
  unfold text_width
  split <;> simp

/-- Whatever the buffer holds, `truncate_text` on ordered bounds below `2^31` never runs out
of fuel above `upper - lower`: it returns or stops at an access outside of the buffer. -/
theorem truncate_text_ne_fuel (advance : List Nat → Int) (width : Int) :
    ∀ (fuel : Nat) (s : List Nat) (lower upper : Nat), lower ≤ upper →
      upper < 2 ^ 31 → upper - lower < fuel →
      truncate_text advance fuel s width lower upper ≠ .error .fuel := by
  intro fuel
  induction fuel with
  | zero => intro s lower upper _ _ h; omega
  | succ fuel ih =>
    intro s lower upper hlu hsum hfuel
    unfold truncate_text
    have habs : ABS lower upper = upper - lower := by
      unfold ABS; rw [if_neg (by omega)]
    rw [habs]
    by_cases hd : upper - lower < 2
    · rw [if_pos hd]; exact store_ne_fuel _ _ _
    · rw [if_neg hd]
      have hmod : (lower + upper) % 2 ^ 32 / 2 = (lower + upper) / 2 := by
        rw [Nat.mod_eq_of_lt (by omega)]
      simp only [hmod]
      intro h
      rcases bind_eq_error _ _ _ h with h1 | ⟨c, -, h⟩
      · exact load_ne_fuel _ _ h1
      rcases bind_eq_error _ _ _ h with h1 | ⟨s1, -, h⟩
      · exact store_ne_fuel _ _ _ h1
      rcases bind_eq_error _ _ _ h with h1 | ⟨w, -, h⟩
      · exact text_width_ne_fuel _ _ h1
      rcases bind_eq_error _ _ _ h with h1 | ⟨s2, -, h⟩
      · exact store_ne_fuel _ _ _ h1
      split at h
      · exact ih s2 _ _ (by omega) (by omega) (by omega) h
      · exact ih s2 _ _ (by omega) (by omega) (by omega) h

/-- The bounds `(2^k - 1, 2^32 - 1)` with `k <= 31` have a `middle` of the same form. -/
theorem middle_wraps (k : Nat) (hk : k ≤ 31) :
    ∃ j, j ≤ 31 ∧ (2 ^ k - 1 + 4294967295) % 2 ^ 32 / 2 = 2 ^ j - 1 := by
  cases k with
  | zero => exact ⟨31, le_refl _, by decide⟩
  | succ k =>
    refine ⟨k, by omega, ?_⟩
    have h1 : 1 ≤ 2 ^ k := Nat.one_le_two_pow
    have h2 : 2 ^ k ≤ 2 ^ 30 := Nat.pow_le_pow_right (by decide) (by omega)
    rw [Nat.pow_succ]
    omega

/-- On a buffer of `2^32` or more bytes, with a measurer that gives every string 0 pixels and
width 1, `truncate_text` from the bounds `(2^k - 1, 2^32 - 1)` runs out of any fuel. -/
theorem truncate_text_cycles (s : List Nat) (hs : 2 ^ 32 ≤ s.length) :
    ∀ (fuel k : Nat), k ≤ 31 →
      truncate_text (fun _ => 0) fuel s 1 (2 ^ k - 1) 4294967295 = .error .fuel := by
  intro fuel
  induction fuel with
  | zero => intro k _; rfl
  | succ fuel ih =>
    intro k hk
    obtain ⟨j, hj, hmid⟩ := middle_wraps k hk
    have h1 : 1 ≤ 2 ^ k := Nat.one_le_two_pow
    have h2 : 2 ^ k ≤ 2 ^ 31 := Nat.pow_le_pow_right (by decide) hk
    have h3 : 1 ≤ 2 ^ j := Nat.one_le_two_pow
    have h4 : 2 ^ j ≤ 2 ^ 31 := Nat.pow_le_pow_right (by decide) hj
    have hmlen : 2 ^ j - 1 < s.length := by omega
    have hnul : (cstr (s.set (2 ^ j - 1) 0)).length < (s.set (2 ^ j - 1) 0).length := by
      have := cstr_length_le_of_zero (s.set (2 ^ j - 1) 0) (2 ^ j - 1)
        (by simp [List.getElem?_set_self, hmlen])
      rw [List.length_set]; omega
    unfold truncate_text
    rw [if_neg (by unfold ABS; rw [if_neg (by omega)]; omega)]
    simp only [hmid]
    rw [load_lt s _ hmlen]
    simp only [bind, Except.bind]
    rw [store_lt s _ 0 hmlen]
    simp only []
    rw [text_width_ok _ _ hnul]
    simp only []
    rw [store_lt _ _ _ (by simpa using hmlen), set_restore s _ 0 hmlen]
    simp only [show ((0 : Int) < 1) = True by simp, if_true]
    exact ih j hj

/-- C16 as stated fails: `lower = 0` and `upper = 2^32 - 1` satisfy `lower <= upper` and
`lower + upper < 2^32`, but the first recursive call has the bounds `(2^31 - 1, 2^32 - 1)`,
whose sum wraps: its `middle` is `2^30 - 1`, below `lower`.  With a measurer that gives every
string 0 pixels and width 1, on a buffer of `2^32` bytes the bounds cycle through
`(2^k - 1, 2^32 - 1)` and the recursion never ends; on an 8-byte buffer the first probe
already reads `s[2^31 - 1]`, outside of the buffer. -/
theorem truncate_text_total_counterexample :
    0 + 4294967295 < 2 ^ 32
      ∧ (2147483647 + 4294967295) % 2 ^ 32 / 2 = 1073741823
      ∧ (∀ fuel, truncate_text (fun _ => 0) fuel (List.replicate 4294967296 32) 1 0 4294967295
          = .error .fuel)
      ∧ (∀ fuel, truncate_text (fun _ => 0) (fuel + 1) [0, 0, 0, 0, 0, 0, 0, 0] 1 0 4294967295
          = .error (.outOfBounds 2147483647)) := by
  refine ⟨by decide, by decide, fun fuel => ?_, fun _ => rfl⟩
  have h := truncate_text_cycles (List.replicate 4294967296 32)
    (by rw [List.length_replicate]; decide) fuel 0 (by decide)
  exact h

/-- C16 (amended): for every buffer, measurer and width and all `lower <= upper < 2^31` (so
that `lower + upper` stays below `2^32` in every recursive call), `truncate_text` terminates:
with fuel above `upper - lower` it never runs out of fuel, and when `upper` is an index of the
buffer it returns the buffer cut at an index between `lower` and `upper`.  It stops exactly
when `upper - lower < 2`, cutting at `lower`; otherwise `middle` lies strictly between the
bounds, so each recursive call has ordered bounds that are strictly closer. -/
theorem truncate_text_total (advance : List Nat → Int) (s : List Nat) (width : Int)
    (fuel lower upper : Nat) (hlu : lower ≤ upper) (hup : upper < 2 ^ 31)
    (hfuel : upper - lower < fuel) :
    truncate_text advance fuel s width lower upper ≠ .error .fuel
      ∧ (upper < s.length → ∃ k, lower ≤ k ∧ k ≤ upper
          ∧ truncate_text advance fuel s width lower upper = .ok (s.set k 0))
      ∧ (upper - lower < 2 →
          truncate_text advance fuel s width lower upper = store s lower 0)
      ∧ (2 ≤ upper - lower →
          lower < (lower + upper) % 2 ^ 32 / 2 ∧ (lower + upper) % 2 ^ 32 / 2 < upper
          ∧ ABS lower ((lower + upper) % 2 ^ 32 / 2) < ABS lower upper
          ∧ ABS ((lower + upper) % 2 ^ 32 / 2) upper < ABS lower upper) := by
  refine ⟨truncate_text_ne_fuel advance width fuel s lower upper hlu hup hfuel,
    truncate_text_cut advance s width fuel lower upper hlu hup hfuel, fun hd => ?_,
    fun hd => ?_⟩
  · obtain ⟨n, rfl⟩ : ∃ n, fuel = n + 1 := ⟨fuel - 1, by omega⟩
    unfold truncate_text
    rw [if_pos (by unfold ABS; rw [if_neg (by omega)]; exact hd)]
  · rw [Nat.mod_eq_of_lt (by omega)]
    unfold ABS
    refine ⟨by omega, by omega, ?_, ?_⟩
    · rw [if_neg (by omega), if_neg (by omega)]; omega
    · rw [if_neg (by omega), if_neg (by omega)]; omega

theorem truncate_text_total_witness :
    ∃ k, 0 ≤ k ∧ k ≤ 4
      ∧ truncate_text sample_advance 5 [97, 98, 99, 100, 101, 0, 0, 0] 25 0 4
        = .ok (([97, 98, 99, 100, 101, 0, 0, 0] : List Nat).set k 0) :=
  (truncate_text_total sample_advance [97, 98, 99, 100, 101, 0, 0, 0] 25 5 0 4
    (by decide) (by decide) (by decide)).2.1 (by decide)

/-- C17 (the code at the failing input): when `BUFSIZ` or more bytes are ready in the pipe,
`read` fills all `BUFSIZ` bytes of `external_infos` and returns `bytes = BUFSIZ`, and the
terminator is then written to `external_infos[BUFSIZ]`, outside of the buffer. -/
theorem read_feed_full_buffer (BUFSIZ : Nat) (advance : List Nat → Int) (fuel : Nat)
    (st : State) (ready : List Nat) (hB : st.external_infos.length = BUFSIZ)
    (hpos : 0 < BUFSIZ) (hready : BUFSIZ ≤ ready.length) :
    (ready.take BUFSIZ).length = BUFSIZ
      ∧ read_feed BUFSIZ advance fuel (some ready) st = .error (.outOfBounds BUFSIZ) := by
  have hl : (ready.take BUFSIZ).length = BUFSIZ := by
    rw [List.length_take]; omega
  refine ⟨hl, ?_⟩
  unfold read_feed
  simp only [hl, if_pos hpos]
  unfold feed_store store read_into
  rw [if_neg (by simp [hl, hB])]
  rfl

theorem read_feed_full_buffer_witness :
    read_feed 8 sample_advance 8 (some [49, 50, 51, 52, 53, 54, 55, 56, 57]) sample_state
      = .error (.outOfBounds 8) :=
  (read_feed_full_buffer 8 sample_advance 8 sample_state [49, 50, 51, 52, 53, 54, 55, 56, 57]
    (by decide) (by decide) (by decide)).2

/-- C18 (the code at the failing input): for the source `"a"` with its NUL (`len = 2`),
`idx = 2` and `num_itm = 3`, the loop skips the only string and stops with `pos = len = 2`
and `cnt = 1`; as `cnt` is not `num_itm - 1`, `strncpy(dest, src + pos, BUFSIZ)` runs and
reads `src[pos + 0] = src[2]`, which is not below `len`.  The same happens in
`update_desktop_name` when the names property holds one name while `cur_desktop = 2` and
`num_desktops = 3`. -/
theorem copy_prop_reads_past_len (BUFSIZ fuel : Nat) (dest : List Nat) (env : Replies)
    (st : State) (hB : 0 < BUFSIZ) (hnames : env.desktop_names = some [97, 0])
    (hcur : st.cur_desktop = 2) (hnum : st.num_desktops = 3) :
    copy_prop_loop [97, 0] 2 2 3 (fuel + 2) 0 0 = .ok (2, 1)
      ∧ load (([97, 0] : List Nat).drop 2) 0 = .error (.outOfBounds 0)
      ∧ copy_prop BUFSIZ (fuel + 2) dest [97, 0] 2 2 3 = .error (.outOfBounds 0)
      ∧ update_desktop_name BUFSIZ (fuel + 2) env st = .error (.outOfBounds 0) := by
  have hloop : copy_prop_loop [97, 0] 2 2 3 (fuel + 2) 0 0 = .ok (2, 1) := by
    unfold copy_prop_loop
    rw [if_pos (by decide)]
    simp only [show strlen (([97, 0] : List Nat).drop (0 : Int).toNat) = .ok 1 from rfl, bind,
      Except.bind]
    unfold copy_prop_loop
    rw [if_neg (by decide)]
    rfl
  have hcopy : ∀ d : List Nat, copy_prop BUFSIZ (fuel + 2) d [97, 0] 2 2 3
      = .error (.outOfBounds 0) := by
    intro d
    obtain ⟨k, rfl⟩ : ∃ k, BUFSIZ = k + 1 := ⟨BUFSIZ - 1, by omega⟩
    unfold copy_prop
    rw [if_neg (by decide), hloop]
    simp only [bind, Except.bind]
    rw [if_neg (by decide)]
    rfl
  refine ⟨hloop, rfl, hcopy dest, ?_⟩
  unfold update_desktop_name
  rw [hnames, hcur, hnum]
  simp only [show int_of_uint ([97, 0] : List Nat).length = 2 from rfl,
    show int_of_uint 2 = 2 from rfl, show int_of_uint 3 = 3 from rfl, hcopy, bind, Except.bind]

theorem copy_prop_reads_past_len_witness :
    copy_prop 8 2 sample_state.desktop_name [97, 0] 2 2 3 = .error (.outOfBounds 0) :=
  (copy_prop_reads_past_len 8 0 sample_state.desktop_name
    { sample_env with desktop_names := some [97, 0] }
    { sample_state with cur_desktop := 2, num_desktops := 3 }
    (by decide) rfl rfl rfl).2.2.1

/-! ## Monotonicity of the truncation step -/

/-- The lengths left by `fit` for two widths `w1 <= w2`, on a title that is non-empty or
whose empty string measures at most `w1`. -/
theorem fit_length_le (advance : List Nat → Int) (fuel : Nat) (s : List Nat) (w1 w2 : Int)
    (hnul : (cstr s).length < s.length) (hsize : s.length ≤ 2 ^ 31) (hfuel : s.length ≤ fuel)
    (hw : w1 ≤ w2) (hne : cstr s ≠ [] ∨ advance [] ≤ w1) :
    ∃ r1 r2, fit advance fuel s w1 = .ok r1 ∧ fit advance fuel s w2 = .ok r2
      ∧ (cstr r1).length ≤ (cstr r2).length := by
  have hne2 : cstr s ≠ [] ∨ advance [] ≤ w2 := hne.imp id (fun h => le_trans h hw)
  rw [fit_eq advance fuel s w1 hnul hsize hfuel hne, fit_eq advance fuel s w2 hnul hsize hfuel hne2]
  refine ⟨_, _, rfl, rfl, ?_⟩
  have hb1 := cutIdx_bounds advance (cstr s) w1 fuel 0 ((cstr s).length - 1) (Nat.zero_le _)
  have hb2 := cutIdx_bounds advance (cstr s) w2 fuel 0 ((cstr s).length - 1) (Nat.zero_le _)
  have hm := cutIdx_mono advance (cstr s) w1 w2 hw fuel 0 ((cstr s).length - 1) (Nat.zero_le _)
  by_cases hgt2 : advance (cstr s) > w2
  · rw [if_pos hgt2, if_pos (show advance (cstr s) > w1 by omega)]
    rw [cstr_cut s _ hnul (by omega), cstr_cut s _ hnul (by omega)]
    simp only [List.length_take]
    omega
  · rw [if_neg hgt2]
    by_cases hgt1 : advance (cstr s) > w1
    · rw [if_pos hgt1, cstr_cut s _ hnul (by omega)]
      simp only [List.length_take]
      omega
    · rw [if_neg hgt1]

/-- On an empty title whose width exceeds `w`, `fit` has no result: the truncation step
reads `s[2^31 - 1]`. -/
theorem fit_empty_not_ok (advance : List Nat → Int) (fuel : Nat) (s : List Nat) (w : Int)
    (hc : cstr s = []) (hnul : (cstr s).length < s.length) (hlen : s.length < 2 ^ 31)
    (hgt : advance [] > w) (r : List Nat) : fit advance fuel s w ≠ .ok r := by
  have hload : load s 2147483647 = .error (.outOfBounds 2147483647) := by
    unfold load
    rw [List.get?_eq_none.mpr (by omega)]
    rfl
  have htt : ∀ r2, truncate_text advance fuel s w 0 4294967295 ≠ .ok r2 := by
    intro r2
    cases fuel with
    | zero => simp [truncate_text]
    | succ n =>
      unfold truncate_text
      rw [if_neg (by decide)]
      simp only [show (0 + 4294967295) % 2 ^ 32 / 2 = 2147483647 by decide, hload, bind,
        Except.bind]
      simp
  intro h
  unfold fit at h
  rw [text_width_ok advance s hnul, hc] at h
  obtain ⟨cw, hcw, h0⟩ := bind_eq_ok _ _ _ h
  simp only [Except.ok.injEq] at hcw
  subst hcw
  obtain ⟨p, h1, -⟩ := bind_eq_ok _ _ _ h0
  unfold truncate_step at h1
  rw [if_pos hgt] at h1
  simp only [strlen, hc, List.length_nil, if_pos (show 0 < s.length by rw [hc] at hnul; exact hnul),
    show (0 + 2 ^ 64 - 1) % 2 ^ 64 % 2 ^ 32 = 4294967295 by decide] at h1
  obtain ⟨n, hn, h2⟩ := bind_eq_ok _ _ _ h1
  simp only [Except.ok.injEq] at hn
  subst hn
  obtain ⟨t2, h3, -⟩ := bind_eq_ok _ _ _ h2
  exact htt t2 h3

/-- C9: for a NUL-terminated title buffer, every deterministic measurer and widths
`0 <= w1 <= w2`: whenever `fit` returns for `w1` it returns for `w2`, and the string it leaves
for `w1` is at most as long as the one it leaves for `w2`; and `fit` does return for both
widths when the measurer gives the empty string the width 0, as the text backend does. -/
theorem fit_length_mono (advance : List Nat → Int) (fuel : Nat) (s : List Nat) (w1 w2 : Int)
    (hnul : (cstr s).length < s.length) (hsize : s.length < 2 ^ 31) (hfuel : s.length ≤ fuel)
    (h0 : 0 ≤ w1) (hw : w1 ≤ w2) :
    (∀ r1, fit advance fuel s w1 = .ok r1 →
        ∃ r2, fit advance fuel s w2 = .ok r2 ∧ (cstr r1).length ≤ (cstr r2).length)
      ∧ (advance [] = 0 →
        ∃ r1 r2, fit advance fuel s w1 = .ok r1 ∧ fit advance fuel s w2 = .ok r2
          ∧ (cstr r1).length ≤ (cstr r2).length) := by
  refine ⟨fun r1 h1 => ?_, fun hz => ?_⟩
  · by_cases hne : cstr s ≠ [] ∨ advance [] ≤ w1
    · obtain ⟨a, b, ha, hb, hab⟩ := fit_length_le advance fuel s w1 w2 hnul (by omega) hfuel
        hw hne
      rw [ha] at h1
      simp only [Except.ok.injEq] at h1
      subst h1
      exact ⟨b, hb, hab⟩
    · have hc : cstr s = [] := by
        by_contra hc; exact hne (Or.inl hc)
      have hgt : advance [] > w1 := by
        by_contra hgt; exact hne (Or.inr (by omega))
      exact absurd h1 (fit_empty_not_ok advance fuel s w1 hc hnul hsize hgt r1)
  · exact fit_length_le advance fuel s w1 w2 hnul (by omega) hfuel hw (Or.inr (by omega))

theorem fit_length_mono_witness :
    ∃ r1 r2, fit (fun t => 10 * (t.length : Int)) 4 [97, 98, 99, 0] 15 = .ok r1
      ∧ fit (fun t => 10 * (t.length : Int)) 4 [97, 98, 99, 0] 25 = .ok r2
      ∧ (cstr r1).length ≤ (cstr r2).length :=
  (fit_length_mono (fun t => 10 * (t.length : Int)) 4 [97, 98, 99, 0] 15 25
    (by decide) (by decide) (by decide) (by decide) (by decide)).2 rfl

end Ewmhstatus
